import Mathlib

/-!
Verification of the PumpSubscriber core (src/main.rs and src/smart_fetcher.rs).

The development shallowly embeds the parts of the program the claims are
about:

* the broker-protocol framer inside `run_once` (byte buffer, control-line
  splitting, MSG/HMSG payload framing, WebSocket text/binary ingestion
  through `String::from_utf8_lossy`);
* `build_connect_options` (CONNECT credential selection from environment);
* `extract_cid_from_url` (CID extraction, with the external `url::Url`
  parser abstracted as an oracle input);
* the supervisor backoff loop in `main`;
* the hedged fetch engine `smart_ipfs_fetch_and_log` (concurrency is
  embedded as an explicit completion schedule).

Byte strings are `List Nat`; Rust `String` values in the framer are byte
sequences, and the byte-index slicing done by the Rust code (which panics
on non-char-boundaries) is modelled with explicit `isCharBoundary` checks.
-/

/-- Byte strings. -/
abbrev Bytes := List Nat

/-- ASCII bytes of a Lean string literal. -/
def bytesOf (s : String) : Bytes := s.data.map Char.toNat

/-- The CRLF byte pair. -/
def crlfB : Bytes := [13, 10]

/-- `startsWithB p l` is Rust's `l.starts_with(p)` at byte level. -/
def startsWithB : Bytes → Bytes → Bool
  | [], _ => true
  | _ :: _, [] => false
  | p :: ps, b :: bs => p = b && startsWithB ps bs

/-- Index of the first occurrence of CRLF in a byte string
(Rust `partial.contains("\r\n")` / `split_once("\r\n")`). -/
def findCRLF : Bytes → Option Nat
  | [] => none
  | [_] => none
  | a :: b :: rest =>
    if a = 13 ∧ b = 10 then some 0
    else (findCRLF (b :: rest)).map (· + 1)

/-- Rust `split_once("\r\n")`: the part before the first CRLF and the part
after it. -/
def splitCRLF (l : Bytes) : Option (Bytes × Bytes) :=
  (findCRLF l).map (fun i => (l.take i, l.drop (i + 2)))

/-- ASCII whitespace bytes (the byte-level restriction of Rust
`char::is_whitespace`; control lines of the broker protocol are ASCII). -/
def isWsByte (b : Nat) : Bool := b = 32 || b = 9 || b = 10 || b = 13 || b = 11 || b = 12

/-- Accumulator-based splitter; `acc` is the current token reversed. -/
def splitWsGo : Bytes → Bytes → List Bytes
  | acc, [] => if acc = [] then [] else [acc.reverse]
  | acc, b :: rest =>
    if isWsByte b then
      if acc = [] then splitWsGo [] rest else acc.reverse :: splitWsGo [] rest
    else splitWsGo (b :: acc) rest

/-- Rust `str::split_whitespace` (byte level): whitespace-separated tokens,
empty tokens dropped. -/
def splitWs (l : Bytes) : List Bytes := splitWsGo [] l

/-- ASCII digit. -/
def isDigitB (b : Nat) : Bool := 48 ≤ b && b ≤ 57

/-- Numeric value of a digit string. -/
def digitsVal : Bytes → Nat → Nat
  | [], acc => acc
  | b :: rest, acc => digitsVal rest (acc * 10 + (b - 48))

/-- Rust `str::parse::<usize>()`: optional leading `+`, then one or more
ASCII digits, rejecting values that overflow 64-bit `usize`. -/
def parseNatB (l : Bytes) : Option Nat :=
  let l' := match l with
    | 43 :: rest => rest
    | _ => l
  if l' = [] then none
  else if l'.all isDigitB then
    let n := digitsVal l' 0
    if n < 2 ^ 64 then some n else none
  else none

/-- Rust `str::is_char_boundary i` on a (UTF-8) byte string: index 0, the
end of the string, or a byte that is not a UTF-8 continuation byte.
Indices beyond the end are not boundaries (slicing there panics). -/
def isCharBoundary (l : Bytes) (i : Nat) : Bool :=
  i = 0 || i = l.length ||
    (match l.get? i with
     | some b => b < 0x80 || 0xC0 ≤ b
     | none => false)

/-! ### UTF-8 lossy decoding (`String::from_utf8_lossy`)

Modelled as a byte-level automaton with the exact acceptance ranges of
Rust's `core::str` validation and the "substitution of maximal subparts"
replacement policy: an invalid prefix of 1–3 bytes becomes one U+FFFD
(bytes EF BF BD), and an incomplete character at the end of the input
becomes one U+FFFD. -/

/-- The UTF-8 encoding of U+FFFD. -/
def utf8Repl : Bytes := [0xEF, 0xBF, 0xBD]

/-- Pending state while inside a multi-byte character: accumulated bytes,
number of continuation bytes still needed, and the admissible range for
the next byte. -/
structure Utf8Pend where
  acc : Bytes
  need : Nat
  lo : Nat
  hi : Nat
  deriving DecidableEq, Repr

/-- Classification of a byte in start position. -/
inductive Utf8Start where
  | ascii (b : Nat)
  | invalid
  | pend (p : Utf8Pend)
  deriving DecidableEq, Repr

/-- Classify a byte at the start of a character. -/
def utf8StartByte (b : Nat) : Utf8Start :=
  if b < 0x80 then .ascii b
  else if b ≤ 0xBF then .invalid
  else if b ≤ 0xC1 then .invalid
  else if b ≤ 0xDF then .pend ⟨[b], 1, 0x80, 0xBF⟩
  else if b = 0xE0 then .pend ⟨[b], 2, 0xA0, 0xBF⟩
  else if b ≤ 0xEC then .pend ⟨[b], 2, 0x80, 0xBF⟩
  else if b = 0xED then .pend ⟨[b], 2, 0x80, 0x9F⟩
  else if b ≤ 0xEF then .pend ⟨[b], 2, 0x80, 0xBF⟩
  else if b = 0xF0 then .pend ⟨[b], 3, 0x90, 0xBF⟩
  else if b ≤ 0xF3 then .pend ⟨[b], 3, 0x80, 0xBF⟩
  else if b = 0xF4 then .pend ⟨[b], 3, 0x80, 0x8F⟩
  else .invalid

/-- The decoding automaton for `String::from_utf8_lossy`. -/
def utf8LossyGo : Option Utf8Pend → Bytes → Bytes
  | none, [] => []
  | some _, [] => utf8Repl
  | none, b :: rest =>
    match utf8StartByte b with
    | .ascii _ => b :: utf8LossyGo none rest
    | .invalid => utf8Repl ++ utf8LossyGo none rest
    | .pend p => utf8LossyGo (some p) rest
  | some p, b :: rest =>
    if p.lo ≤ b ∧ b ≤ p.hi then
      if p.need = 1 then (p.acc ++ [b]) ++ utf8LossyGo none rest
      else utf8LossyGo (some ⟨p.acc ++ [b], p.need - 1, 0x80, 0xBF⟩) rest
    else
      utf8Repl ++
        (match utf8StartByte b with
         | .ascii _ => b :: utf8LossyGo none rest
         | .invalid => utf8Repl ++ utf8LossyGo none rest
         | .pend q => utf8LossyGo (some q) rest)

/-- Rust `String::from_utf8_lossy`. -/
def utf8Lossy (l : Bytes) : Bytes := utf8LossyGo none l

/-- The same automaton as a validity check (`str::from_utf8(..).is_ok()`). -/
def utf8ValidGo : Option Utf8Pend → Bytes → Bool
  | none, [] => true
  | some _, [] => false
  | none, b :: rest =>
    match utf8StartByte b with
    | .ascii _ => utf8ValidGo none rest
    | .invalid => false
    | .pend p => utf8ValidGo (some p) rest
  | some p, b :: rest =>
    if p.lo ≤ b ∧ b ≤ p.hi then
      if p.need = 1 then utf8ValidGo none rest
      else utf8ValidGo (some ⟨p.acc ++ [b], p.need - 1, 0x80, 0xBF⟩) rest
    else false

/-- Valid UTF-8 byte strings. -/
def validUtf8 (l : Bytes) : Bool := utf8ValidGo none l

set_option maxHeartbeats 1000000 in
/-- A byte classified as a multi-byte starter carries itself as the
accumulated prefix. -/
theorem utf8StartByte_pend_acc (b : Nat) (p : Utf8Pend)
    (h : utf8StartByte b = .pend p) : p.acc = [b] := by
  unfold utf8StartByte at h
  repeat' split at h
  all_goals
    first
      | (injection h with h1; subst h1; rfl)
      | injection h

/-- On valid input the lossy decoder is the identity (generalised over the
automaton state). -/
theorem utf8LossyGo_of_valid :
    ∀ (l : Bytes) (st : Option Utf8Pend), utf8ValidGo st l = true →
      utf8LossyGo st l = (match st with | none => [] | some p => p.acc) ++ l := by
  intro l
  induction l with
  | nil =>
    intro st h
    cases st with
    | none => rfl
    | some p => simp [utf8ValidGo] at h
  | cons b rest ih =>
    intro st h
    cases st with
    | none =>
      simp only [utf8ValidGo] at h
      simp only [utf8LossyGo]
      cases hs : utf8StartByte b with
      | ascii c =>
        rw [hs] at h; dsimp only at h ⊢
        rw [ih none h]
        rfl
      | invalid =>
        rw [hs] at h; dsimp only at h
        exact absurd h (by simp)
      | pend p =>
        rw [hs] at h; dsimp only at h ⊢
        rw [ih (some p) h]
        dsimp only
        rw [utf8StartByte_pend_acc b p hs]
        rfl
    | some p =>
      simp only [utf8ValidGo] at h
      simp only [utf8LossyGo]
      by_cases hr : p.lo ≤ b ∧ b ≤ p.hi
      · rw [if_pos hr] at h ⊢
        by_cases hn : p.need = 1
        · rw [if_pos hn] at h ⊢
          rw [ih none h]
          simp
        · rw [if_neg hn] at h ⊢
          rw [ih (some ⟨p.acc ++ [b], p.need - 1, 0x80, 0xBF⟩) h]
          simp
      · rw [if_neg hr] at h
        exact absurd h (by simp)

/-- `String::from_utf8_lossy` is the identity on valid UTF-8. -/
theorem utf8Lossy_of_valid (l : Bytes) (h : validUtf8 l = true) :
    utf8Lossy l = l := by
  have := utf8LossyGo_of_valid l none h
  simpa [utf8Lossy] using this

/-! ### The framer of `run_once`

The loop body of `run_once` (src/main.rs:461-617, src/smart_fetcher.rs
identically) is embedded as a step function on the session state.  One
step is one pass through the loop that makes progress without reading
from the transport; `blocked` means the loop would read more input.
Rust string slicing (`partial[..len]`, `partial[len..len+2]`,
`payload_block[hlen..]`) panics when an index is out of range or not a
character boundary; this is the `panic` result. -/

/-- Observable per-frame effects of the loop body: PING answered with
PONG, PONG ignored, INFO (with handshake commands sent when it is the
first one), and a dispatched message (subject and body handed to
`print_parsed_line` / the fetch spawner). -/
inductive Ev where
  | pingReceived
  | pongReceived
  | info (json : Bytes) (handshake : Bool)
  | msg (subject : Bytes) (body : Bytes)
  deriving DecidableEq, Repr

/-- Errors that terminate `run_once` with `Err` from inside the framer. -/
inductive FatalErr where
  | serverErr (line : Bytes)
  | badMsgHeader (line : Bytes)
  | invalidMsgLen (line : Bytes)
  | badHmsgHeader (line : Bytes)
  | invalidHmsgHdrLen (line : Bytes)
  | invalidHmsgTotalLen (line : Bytes)
  deriving DecidableEq, Repr

/-- The mutable locals of `run_once`: `partial`, `expected_payload`,
`expected_header_len`, `current_subject`, `connected`. -/
structure St where
  buf : Bytes
  expPayload : Option Nat
  expHeader : Option Nat
  subj : Option Bytes
  connected : Bool
  deriving DecidableEq, Repr

/-- State at the start of a connection. -/
def initSt : St := ⟨[], none, none, none, false⟩

/-- Result of one loop pass. -/
inductive StepRes where
  | blocked
  | cont (ev : Option Ev) (s : St)
  | fatal (e : FatalErr)
  | panic
  deriving DecidableEq, Repr

/-- Control-line classification (the `if line.starts_with(..)` chain). -/
def lineStep (s : St) (line rest : Bytes) : StepRes :=
  if line = [] then .cont none { s with buf := rest }
  else if startsWithB (bytesOf "PING") line then .cont (some .pingReceived) { s with buf := rest }
  else if startsWithB (bytesOf "PONG") line then .cont (some .pongReceived) { s with buf := rest }
  else if startsWithB (bytesOf "-ERR") line then .fatal (.serverErr line)
  else if startsWithB (bytesOf "INFO ") line then
    if s.connected then .cont (some (.info (line.drop 5) false)) { s with buf := rest }
    else .cont (some (.info (line.drop 5) true)) { s with buf := rest, connected := true }
  else if startsWithB (bytesOf "MSG ") line then
    if (splitWs line).length < 4 then .fatal (.badMsgHeader line)
    else
      match parseNatB ((splitWs line).getD 3 []) with
      | none => .fatal (.invalidMsgLen line)
      | some n =>
        .cont none { buf := rest, expPayload := some n, expHeader := none,
                     subj := some ((splitWs line).getD 1 []), connected := s.connected }
  else if startsWithB (bytesOf "HMSG ") line then
    if (splitWs line).length < 5 then .fatal (.badHmsgHeader line)
    else
      match parseNatB ((splitWs line).getD 3 []) with
      | none => .fatal (.invalidHmsgHdrLen line)
      | some h =>
        match parseNatB ((splitWs line).getD 4 []) with
        | none => .fatal (.invalidHmsgTotalLen line)
        | some n =>
          .cont none { buf := rest, expPayload := some n, expHeader := some h,
                       subj := some ((splitWs line).getD 1 []), connected := s.connected }
  else .cont none { s with buf := rest }

/-- One pass of the `run_once` loop.  With a pending payload the loop
waits for `payload-len + 2` buffered bytes, slices the payload block,
consumes the trailing CRLF when present, and dispatches the message
(dropping the declared header prefix for HMSG); otherwise it splits off
one CRLF-terminated control line. -/
def step (s : St) : StepRes :=
  match s.expPayload with
  | some len =>
    if s.buf.length < len + 2 then .blocked
    else if isCharBoundary s.buf len then
      if isCharBoundary s.buf (len + 2) then
        match s.expHeader with
        | some h =>
          if isCharBoundary (s.buf.take len) h then
            .cont (some (.msg (s.subj.getD []) ((s.buf.take len).drop h)))
              { buf := if (s.buf.drop len).take 2 = crlfB then s.buf.drop (len + 2) else s.buf.drop len,
                expPayload := none, expHeader := none, subj := none,
                connected := s.connected }
          else .panic
        | none =>
          .cont (some (.msg (s.subj.getD []) (s.buf.take len)))
            { buf := if (s.buf.drop len).take 2 = crlfB then s.buf.drop (len + 2) else s.buf.drop len,
              expPayload := none, expHeader := none, subj := none,
              connected := s.connected }
      else .panic
    else .panic
  | none =>
    match splitCRLF s.buf with
    | none => .blocked
    | some (line, rest) => lineStep s line rest

/-- Termination measure: one step either consumes buffered bytes or
discharges the pending payload. -/
def muSt (s : St) : Nat := 2 * s.buf.length + (if s.expPayload.isSome then 1 else 0)

/-- Connection-level outcome of draining the buffer. -/
inductive Outcome where
  | pending (s : St)
  | fatal (e : FatalErr)
  | crashed
  deriving DecidableEq, Repr

/-- Drain the buffer with explicit fuel. -/
def goFr : Nat → St → List Ev × Outcome
  | 0, s => ([], .pending s)
  | n + 1, s =>
    match step s with
    | .blocked => ([], .pending s)
    | .fatal e => ([], .fatal e)
    | .panic => ([], .crashed)
    | .cont ev s' =>
      let p := goFr n s'
      (ev.toList ++ p.1, p.2)

/-- Run the loop until it blocks on the transport, errors, or panics:
the events emitted and the outcome. -/
def processAll (s : St) : List Ev × Outcome := goFr (muSt s) s

/-! ### Buffer-append lemmas for the framer -/

/-- Taking at most the first list's length ignores an appended tail. -/
theorem take_append_le {α : Type} : ∀ (n : Nat) (l r : List α), n ≤ l.length → (l ++ r).take n = l.take n := by
  intro n
  induction n with
  | zero => intro l r _; simp
  | succ n ih =>
    intro l r h
    cases l with
    | nil => simp at h
    | cons a l' =>
      simp only [List.cons_append, List.take_succ_cons]
      rw [ih l' r (by simpa using h)]

/-- Dropping at most the first list's length keeps the appended tail. -/
theorem drop_append_le {α : Type} : ∀ (n : Nat) (l r : List α), n ≤ l.length → (l ++ r).drop n = l.drop n ++ r := by
  intro n
  induction n with
  | zero => intro l r _; simp
  | succ n ih =>
    intro l r h
    cases l with
    | nil => simp at h
    | cons a l' =>
      simp only [List.cons_append, List.drop_succ_cons]
      exact ih l' r (by simpa using h)

/-- Indexing below the first list's length ignores an appended tail. -/
theorem get?_append_lt {α : Type} : ∀ (n : Nat) (l r : List α), n < l.length → (l ++ r).get? n = l.get? n := by
  intro n
  induction n with
  | zero =>
    intro l r h
    cases l with
    | nil => simp at h
    | cons a l' => rfl
  | succ n ih =>
    intro l r h
    cases l with
    | nil => simp at h
    | cons a l' => exact ih l' r (by simpa using h)

/-- A found CRLF fits inside the byte string. -/
theorem findCRLF_le : ∀ (l : Bytes) (i : Nat), findCRLF l = some i → i + 2 ≤ l.length
  | [], i => by simp [findCRLF]
  | [_], i => by simp [findCRLF]
  | a :: b :: rest, i => by
    simp only [findCRLF]
    split
    · intro h
      injection h with h1
      subst h1
      simp
    · intro h
      match hm : findCRLF (b :: rest) with
      | none => rw [hm] at h; simp at h
      | some j =>
        rw [hm] at h
        simp only [Option.map_some'] at h
        injection h with h1
        subst h1
        have := findCRLF_le (b :: rest) j hm
        simp only [List.length_cons] at this ⊢
        omega

/-- The first CRLF position is stable under appending bytes. -/
theorem findCRLF_append : ∀ (l : Bytes) (i : Nat) (c : Bytes),
    findCRLF l = some i → findCRLF (l ++ c) = some i
  | [], i, c => by simp [findCRLF]
  | [_], i, c => by simp [findCRLF]
  | a :: b :: rest, i, c => by
    simp only [findCRLF, List.cons_append]
    split
    · exact fun h => h
    · intro h
      match hm : findCRLF (b :: rest) with
      | none => rw [hm] at h; simp at h
      | some j =>
        rw [hm] at h
        have : findCRLF ((b :: rest) ++ c) = some j := findCRLF_append (b :: rest) j c hm
        simp only [List.cons_append] at this
        simp only [List.append_eq]
        rw [this]
        exact h

/-- Splitting off the first control line is stable under appending. -/
theorem splitCRLF_append (l c line rest : Bytes)
    (h : splitCRLF l = some (line, rest)) : splitCRLF (l ++ c) = some (line, rest ++ c) := by
  unfold splitCRLF at h ⊢
  match hm : findCRLF l with
  | none => rw [hm] at h; simp at h
  | some i =>
    rw [hm] at h
    simp only [Option.map_some'] at h
    injection h with h1
    have hline : l.take i = line := congrArg Prod.fst h1
    have hrest : l.drop (i + 2) = rest := congrArg Prod.snd h1
    have hle := findCRLF_le l i hm
    rw [findCRLF_append l i c hm]
    simp only [Option.map_some']
    rw [take_append_le i l c (by omega), drop_append_le (i + 2) l c hle, hline, hrest]

/-- Append newly read bytes to the buffer. -/
def addB (s : St) (c : Bytes) : St := { s with buf := s.buf ++ c }

/-- The appended bytes do not start with a UTF-8 continuation byte.
Every chunk the code appends does satisfy this: text frames and
`from_utf8_lossy` outputs are valid UTF-8. -/
def chunkStartOk : Bytes → Bool
  | [] => true
  | b :: _ => b < 0x80 || 0xC0 ≤ b

/-- Control-line handling only stores the remainder of the buffer; its
decision depends on the line alone. -/
theorem lineStep_append (s : St) (line rest c : Bytes) :
    lineStep s line (rest ++ c) =
      match lineStep s line rest with
      | .cont ev s' => .cont ev (addB s' c)
      | r => r := by
  unfold lineStep
  by_cases h1 : line = []
  · simp only [if_pos h1]; rfl
  · simp only [if_neg h1]
    by_cases h2 : startsWithB (bytesOf "PING") line = true
    · simp only [h2, if_true]; rfl
    · simp only [Bool.not_eq_true] at h2
      simp only [h2, Bool.false_eq_true, if_false]
      by_cases h3 : startsWithB (bytesOf "PONG") line = true
      · simp only [h3, if_true]; rfl
      · simp only [Bool.not_eq_true] at h3
        simp only [h3, Bool.false_eq_true, if_false]
        by_cases h4 : startsWithB (bytesOf "-ERR") line = true
        · simp only [h4, if_true]
        · simp only [Bool.not_eq_true] at h4
          simp only [h4, Bool.false_eq_true, if_false]
          by_cases h5 : startsWithB (bytesOf "INFO ") line = true
          · simp only [h5, if_true]
            by_cases hc5 : s.connected = true
            · simp only [hc5, if_true]; rfl
            · simp only [Bool.not_eq_true] at hc5
              simp only [hc5, Bool.false_eq_true, if_false]; rfl
          · simp only [Bool.not_eq_true] at h5
            simp only [h5, Bool.false_eq_true, if_false]
            by_cases h6 : startsWithB (bytesOf "MSG ") line = true
            · simp only [h6, if_true]
              by_cases h7 : (splitWs line).length < 4
              · simp only [if_pos h7]
              · simp only [if_neg h7]
                cases hp : parseNatB ((splitWs line).getD 3 []) <;> simp only [hp] <;> rfl
            · simp only [Bool.not_eq_true] at h6
              simp only [h6, Bool.false_eq_true, if_false]
              by_cases h8 : startsWithB (bytesOf "HMSG ") line = true
              · simp only [h8, if_true]
                by_cases h9 : (splitWs line).length < 5
                · simp only [if_pos h9]
                · simp only [if_neg h9]
                  cases hp : parseNatB ((splitWs line).getD 3 []) <;> simp only [hp]
                  cases hq : parseNatB ((splitWs line).getD 4 []) <;> simp only [hq] <;> rfl
              · simp only [Bool.not_eq_true] at h8
                simp only [h8, Bool.false_eq_true, if_false]; rfl

/-- Character boundads of the buffer below its end are stable under
appending. -/
theorem isCharBoundary_append_lt (l c : Bytes) (i : Nat) (hi : i < l.length) :
    isCharBoundary (l ++ c) i = isCharBoundary l i := by
  unfold isCharBoundary
  rw [get?_append_lt i l c hi]
  by_cases h0 : i = 0
  · simp [h0]
  · have h1 : i ≠ l.length := by omega
    have h2 : i ≠ (l ++ c).length := by simp; omega
    simp only [h0, h1, h2, decide_False, Bool.false_or]

/-- A boundary at the exact end of the buffer stays a boundary when the
appended bytes do not start with a continuation byte. -/
theorem isCharBoundary_append_end (l c : Bytes) (hc : chunkStartOk c = true) :
    isCharBoundary (l ++ c) l.length = true := by
  cases c with
  | nil => simp [isCharBoundary]
  | cons b cs =>
    unfold isCharBoundary
    have : (l ++ b :: cs).get? l.length = some b := by
      rw [List.get?_append_right (Nat.le_refl _)]
      simp
    rw [this]
    simp only [chunkStartOk] at hc
    simp [hc]

/-- Boundary checks at indices up to the buffered length are stable under
appending a chunk that does not start with a continuation byte. -/
theorem isCharBoundary_append_le (l c : Bytes) (i : Nat) (hi : i ≤ l.length)
    (hc : chunkStartOk c = true) :
    isCharBoundary (l ++ c) i = isCharBoundary l i := by
  rcases Nat.lt_or_ge i l.length with h | h
  · exact isCharBoundary_append_lt l c i h
  · have hil : i = l.length := Nat.le_antisymm hi h
    subst hil
    rw [isCharBoundary_append_end l c hc]
    simp [isCharBoundary]

/-- The control-line handler only reads the non-buffer fields of the
state, which `addB` preserves. -/
theorem lineStep_addB (s : St) (c : Bytes) (line rest : Bytes) :
    lineStep (addB s c) line rest = lineStep s line rest := by
  cases s
  rfl

/-- Reading more bytes commutes with one loop pass: unless the pass was
blocked waiting for input, it makes the same decision with the new bytes
sitting after the part it consumes. -/
theorem step_addB (s : St) (c : Bytes) (hc : chunkStartOk c = true) :
    step s = .blocked ∨
      step (addB s c) =
        (match step s with
         | .cont ev s' => .cont ev (addB s' c)
         | r => r) := by
  obtain ⟨buf, ep, eh, sj, cn⟩ := s
  cases ep with
  | none =>
    cases hsp : splitCRLF buf with
    | none =>
      left
      simp [step, hsp]
    | some pr =>
      obtain ⟨line, rest⟩ := pr
      right
      have hsp' := splitCRLF_append buf c line rest hsp
      have h1 : step ⟨buf, none, eh, sj, cn⟩ = lineStep ⟨buf, none, eh, sj, cn⟩ line rest := by
        simp [step, hsp]
      have h2 : step (addB ⟨buf, none, eh, sj, cn⟩ c)
          = lineStep ⟨buf ++ c, none, eh, sj, cn⟩ line (rest ++ c) := by
        simp [step, addB, hsp']
      rw [h1, h2]
      have h3 : lineStep (⟨buf ++ c, none, eh, sj, cn⟩ : St) line (rest ++ c)
          = lineStep (⟨buf, none, eh, sj, cn⟩ : St) line (rest ++ c) := rfl
      rw [h3, lineStep_append]
  | some len =>
    by_cases hlen : buf.length < len + 2
    · left
      simp [step, hlen]
    · right
      have hlen2 : len + 2 ≤ buf.length := Nat.le_of_not_lt hlen
      have hlenc : ¬ (buf ++ c).length < len + 2 := by
        simp only [List.length_append]
        omega
      have hb1 : isCharBoundary (buf ++ c) len = isCharBoundary buf len :=
        isCharBoundary_append_le buf c len (by omega) hc
      have hb2 : isCharBoundary (buf ++ c) (len + 2) = isCharBoundary buf (len + 2) :=
        isCharBoundary_append_le buf c (len + 2) hlen2 hc
      have htake : (buf ++ c).take len = buf.take len := take_append_le len buf c (by omega)
      have hdrop : (buf ++ c).drop len = buf.drop len ++ c := drop_append_le len buf c (by omega)
      have hdrop2 : (buf ++ c).drop (len + 2) = buf.drop (len + 2) ++ c :=
        drop_append_le (len + 2) buf c hlen2
      have htake2 : (buf.drop len ++ c).take 2 = (buf.drop len).take 2 := by
        apply take_append_le
        simp only [List.length_drop]
        omega
      simp only [step, addB, hlen, if_neg hlenc, hb1, hb2, htake, hdrop, hdrop2, htake2]
      by_cases hcb1 : isCharBoundary buf len = true
      · simp only [hcb1, if_true]
        by_cases hcb2 : isCharBoundary buf (len + 2) = true
        · simp only [hcb2, if_true]
          by_cases hcr : (buf.drop len).take 2 = crlfB
          · simp only [if_pos hcr]
            cases eh with
            | none => simp [step, hlen, hcb1, hcb2, hcr]
            | some h =>
              by_cases hbh : isCharBoundary (buf.take len) h = true
              · simp [step, hlen, hcb1, hcb2, hcr, hbh]
              · simp only [Bool.not_eq_true] at hbh
                simp [step, hlen, hcb1, hcb2, hcr, hbh]
          · simp only [if_neg hcr]
            cases eh with
            | none => simp [step, hlen, hcb1, hcb2, hcr]
            | some h =>
              by_cases hbh : isCharBoundary (buf.take len) h = true
              · simp [step, hlen, hcb1, hcb2, hcr, hbh]
              · simp only [Bool.not_eq_true] at hbh
                simp [step, hlen, hcb1, hcb2, hcr, hbh]
        · simp only [Bool.not_eq_true] at hcb2
          simp [step, hlen, hcb1, hcb2]
      · simp only [Bool.not_eq_true] at hcb1
        simp [step, hlen, hcb1]

/-- A control line that continues processing stores exactly the remainder
of the buffer. -/
theorem lineStep_cont_buf (s : St) (line rest : Bytes) (ev : Option Ev) (s' : St)
    (h : lineStep s line rest = .cont ev s') : s'.buf = rest := by
  unfold lineStep at h
  repeat' split at h
  all_goals
    first
      | (injection h with h1 h2; subst h2; rfl)
      | exact StepRes.noConfusion h

/-- The remainder after splitting off a control line is at least two bytes
shorter than the buffer. -/
theorem splitCRLF_rest_le (l line rest : Bytes) (h : splitCRLF l = some (line, rest)) :
    rest.length + 2 ≤ l.length := by
  unfold splitCRLF at h
  cases hm : findCRLF l with
  | none => rw [hm] at h; simp at h
  | some i =>
    rw [hm] at h
    simp only [Option.map_some'] at h
    injection h with h1
    have hrest : l.drop (i + 2) = rest := congrArg Prod.snd h1
    have hle := findCRLF_le l i hm
    have : rest.length = l.length - (i + 2) := by
      rw [← hrest, List.length_drop]
    omega

/-- Each continuing pass strictly decreases the measure. -/
theorem step_cont_mu (s : St) (ev : Option Ev) (s' : St) (h : step s = .cont ev s') :
    muSt s' < muSt s := by
  obtain ⟨buf, ep, eh, sj, cn⟩ := s
  cases ep with
  | some len =>
    unfold step at h
    dsimp only at h
    by_cases hlen : buf.length < len + 2
    · rw [if_pos hlen] at h
      exact StepRes.noConfusion h
    · rw [if_neg hlen] at h
      have hlen2 : len + 2 ≤ buf.length := Nat.le_of_not_lt hlen
      repeat' split at h
      all_goals
        first
          | ((injection h with h1 h2; subst h2;
              simp [muSt, List.length_drop]) <;> omega)
          | exact StepRes.noConfusion h
  | none =>
    unfold step at h
    dsimp only at h
    cases hsp : splitCRLF buf with
    | none =>
      rw [hsp] at h
      exact StepRes.noConfusion h
    | some pr =>
      obtain ⟨line, rest⟩ := pr
      rw [hsp] at h
      dsimp only at h
      have hbuf : s'.buf = rest := lineStep_cont_buf _ line rest ev s' h
      have hb : muSt s' ≤ 2 * s'.buf.length + 1 := by
        unfold muSt
        split <;> omega
      rw [hbuf] at hb
      have hrl := splitCRLF_rest_le buf line rest hsp
      have hms : muSt (⟨buf, none, eh, sj, cn⟩ : St) = 2 * buf.length := by
        simp [muSt]
      rw [hms]
      omega

/-- Zero measure means the pass is blocked on input. -/
theorem muSt_zero_blocked (s : St) (h : muSt s = 0) : step s = .blocked := by
  obtain ⟨buf, ep, eh, sj, cn⟩ := s
  unfold muSt at h
  cases ep with
  | some len => simp at h
  | none =>
    have hbuf : buf = [] := by
      cases buf with
      | nil => rfl
      | cons a l => simp at h
    subst hbuf
    rfl

/-- With at least `muSt s` fuel the drain result is fuel-independent. -/
theorem goFr_stable (n : Nat) : ∀ (s : St), muSt s ≤ n → goFr n s = goFr (muSt s) s := by
  induction n using Nat.strong_induction_on with
  | _ n ih =>
    intro s hmu
    rcases Nat.eq_or_lt_of_le hmu with heq | hlt
    · rw [heq]
    · cases n with
      | zero => omega
      | succ m =>
        cases hst : step s with
        | blocked =>
          cases hmu0 : muSt s with
          | zero => simp [goFr, hst]
          | succ k => simp [goFr, hst]
        | fatal e =>
          cases hmu0 : muSt s with
          | zero =>
            have := muSt_zero_blocked s hmu0
            rw [this] at hst
            exact StepRes.noConfusion hst
          | succ k => simp [goFr, hst]
        | panic =>
          cases hmu0 : muSt s with
          | zero =>
            have := muSt_zero_blocked s hmu0
            rw [this] at hst
            exact StepRes.noConfusion hst
          | succ k => simp [goFr, hst]
        | cont ev s' =>
          cases hmu0 : muSt s with
          | zero =>
            have := muSt_zero_blocked s hmu0
            rw [this] at hst
            exact StepRes.noConfusion hst
          | succ k =>
            have hlt' : muSt s' < muSt s := step_cont_mu s ev s' hst
            have e1 : goFr m s' = goFr (muSt s') s' := ih m (by omega) s' (by omega)
            have e2 : goFr k s' = goFr (muSt s') s' := ih k (by omega) s' (by omega)
            simp only [goFr, hst]
            rw [e1, e2]

/-- Unfolding equation for `processAll`. -/
theorem processAll_eq (s : St) :
    processAll s =
      match step s with
      | .blocked => ([], .pending s)
      | .fatal e => ([], .fatal e)
      | .panic => ([], .crashed)
      | .cont ev s' => (ev.toList ++ (processAll s').1, (processAll s').2) := by
  cases hst : step s with
  | blocked =>
    cases hmu0 : muSt s with
    | zero => simp [processAll, hmu0, goFr]
    | succ k => simp [processAll, hmu0, goFr, hst]
  | fatal e =>
    cases hmu0 : muSt s with
    | zero =>
      have := muSt_zero_blocked s hmu0
      rw [this] at hst
      exact StepRes.noConfusion hst
    | succ k => simp [processAll, hmu0, goFr, hst]
  | panic =>
    cases hmu0 : muSt s with
    | zero =>
      have := muSt_zero_blocked s hmu0
      rw [this] at hst
      exact StepRes.noConfusion hst
    | succ k => simp [processAll, hmu0, goFr, hst]
  | cont ev s' =>
    cases hmu0 : muSt s with
    | zero =>
      have := muSt_zero_blocked s hmu0
      rw [this] at hst
      exact StepRes.noConfusion hst
    | succ k =>
      have hlt' : muSt s' < muSt s := step_cont_mu s ev s' hst
      have e2 : goFr k s' = goFr (muSt s') s' := goFr_stable k s' (by omega)
      simp only [processAll, hmu0, goFr, hst]
      rw [e2]

/-- A drain that ends pending has consumed everything it could. -/
theorem processAll_pending_blocked :
    ∀ (n : Nat) (s : St), muSt s ≤ n → ∀ (evs : List Ev) (s₁ : St),
      processAll s = (evs, .pending s₁) → step s₁ = .blocked := by
  intro n
  induction n using Nat.strong_induction_on with
  | _ n ih =>
    intro s hmu evs s₁ h
    rw [processAll_eq] at h
    cases hst : step s with
    | blocked =>
      rw [hst] at h
      injection h with h1 h2
      injection h2 with h3
      rw [← h3]
      exact hst
    | fatal e =>
      rw [hst] at h
      injection h with h1 h2
      exact Outcome.noConfusion h2
    | panic =>
      rw [hst] at h
      injection h with h1 h2
      exact Outcome.noConfusion h2
    | cont ev s' =>
      rw [hst] at h
      injection h with h1 h2
      have hlt : muSt s' < muSt s := step_cont_mu s ev s' hst
      cases n with
      | zero => omega
      | succ m =>
        apply ih m (by omega) s' (by omega) (processAll s').1 s₁
        have : processAll s' = ((processAll s').1, (processAll s').2) := rfl
        rw [this, h2]

/-- Feeding extra bytes after a drain continues exactly where the drain
stopped: pending states absorb the bytes and go on, dead states stay
dead and keep their events. -/
theorem processAll_addB :
    ∀ (n : Nat) (s : St) (c : Bytes), muSt s ≤ n → chunkStartOk c = true →
      (∀ evs s₁, processAll s = (evs, .pending s₁) →
          processAll (addB s c) =
            (evs ++ (processAll (addB s₁ c)).1, (processAll (addB s₁ c)).2)) ∧
      (∀ evs e, processAll s = (evs, .fatal e) → processAll (addB s c) = (evs, .fatal e)) ∧
      (∀ evs, processAll s = (evs, .crashed) → processAll (addB s c) = (evs, .crashed)) := by
  intro n
  induction n using Nat.strong_induction_on with
  | _ n ih =>
    intro s c hmu hc
    rcases step_addB s c hc with hbl | hstep
    · -- blocked: the drain of `s` is a no-op
      have hs : processAll s = ([], .pending s) := by
        rw [processAll_eq, hbl]
      refine ⟨?_, ?_, ?_⟩
      · intro evs s₁ h
        rw [hs] at h
        injection h with h1 h2
        injection h2 with h3
        subst h1
        subst h3
        simp
      · intro evs e h
        rw [hs] at h
        injection h with h1 h2
        exact Outcome.noConfusion h2
      · intro evs h
        rw [hs] at h
        injection h with h1 h2
        exact Outcome.noConfusion h2
    · cases hst : step s with
      | blocked =>
        -- same as the left disjunct
        have hs : processAll s = ([], .pending s) := by
          rw [processAll_eq, hst]
        refine ⟨?_, ?_, ?_⟩
        · intro evs s₁ h
          rw [hs] at h
          injection h with h1 h2
          injection h2 with h3
          subst h1
          subst h3
          simp
        · intro evs e h
          rw [hs] at h
          injection h with h1 h2
          exact Outcome.noConfusion h2
        · intro evs h
          rw [hs] at h
          injection h with h1 h2
          exact Outcome.noConfusion h2
      | fatal e0 =>
        rw [hst] at hstep
        have hs : processAll s = ([], .fatal e0) := by
          rw [processAll_eq, hst]
        have hsc : processAll (addB s c) = ([], .fatal e0) := by
          rw [processAll_eq, hstep]
        refine ⟨?_, ?_, ?_⟩
        · intro evs s₁ h
          rw [hs] at h
          injection h with h1 h2
          exact Outcome.noConfusion h2
        · intro evs e h
          rw [hs] at h
          injection h with h1 h2
          injection h2 with h3
          subst h1
          subst h3
          exact hsc
        · intro evs h
          rw [hs] at h
          injection h with h1 h2
          exact Outcome.noConfusion h2
      | panic =>
        rw [hst] at hstep
        have hs : processAll s = ([], .crashed) := by
          rw [processAll_eq, hst]
        have hsc : processAll (addB s c) = ([], .crashed) := by
          rw [processAll_eq, hstep]
        refine ⟨?_, ?_, ?_⟩
        · intro evs s₁ h
          rw [hs] at h
          injection h with h1 h2
          exact Outcome.noConfusion h2
        · intro evs e h
          rw [hs] at h
          injection h with h1 h2
          exact Outcome.noConfusion h2
        · intro evs h
          rw [hs] at h
          injection h with h1 h2
          subst h1
          exact hsc
      | cont ev s' =>
        rw [hst] at hstep
        have hlt : muSt s' < muSt s := step_cont_mu s ev s' hst
        have hs : processAll s = (ev.toList ++ (processAll s').1, (processAll s').2) := by
          rw [processAll_eq, hst]
        have hsc : processAll (addB s c)
            = (ev.toList ++ (processAll (addB s' c)).1, (processAll (addB s' c)).2) := by
          rw [processAll_eq, hstep]
        cases n with
        | zero => omega
        | succ m =>
          have ihm := ih m (by omega) s' c (by omega) hc
          refine ⟨?_, ?_, ?_⟩
          · intro evs s₁ h
            rw [hs] at h
            injection h with h1 h2
            have := ihm.1 (processAll s').1 s₁ (by
              have : processAll s' = ((processAll s').1, (processAll s').2) := rfl
              rw [this, h2])
            rw [hsc, this, ← h1]
            simp
          · intro evs e h
            rw [hs] at h
            injection h with h1 h2
            have := ihm.2.1 (processAll s').1 e (by
              have : processAll s' = ((processAll s').1, (processAll s').2) := rfl
              rw [this, h2])
            rw [hsc, this, ← h1]
          · intro evs h
            rw [hs] at h
            injection h with h1 h2
            have := ihm.2.2 (processAll s').1 (by
              have : processAll s' = ((processAll s').1, (processAll s').2) := rfl
              rw [this, h2])
            rw [hsc, this, ← h1]

/-! ### Session-level runs over transport reads -/

/-- Connection status across reads: live, returned `Err` from a protocol
error, or panicked on a slice. -/
inductive MState where
  | live (s : St)
  | failed (e : FatalErr)
  | crashed
  deriving DecidableEq, Repr

/-- Outcome of one drain as a machine state. -/
def outcomeM : Outcome → MState
  | .pending s => .live s
  | .fatal e => .failed e
  | .crashed => .crashed

/-- Feed one decoded chunk: append to the buffer and drain. A dead
connection ignores further input. -/
def feedBytes : MState → Bytes → List Ev × MState
  | .live s, c => ((processAll (addB s c)).1, outcomeM (processAll (addB s c)).2)
  | .failed e, _ => ([], .failed e)
  | .crashed, _ => ([], .crashed)

/-- Feed a sequence of decoded chunks, accumulating emitted events. -/
def runB : MState → List Bytes → List Ev × MState
  | m, [] => ([], m)
  | m, c :: cs =>
    ((feedBytes m c).1 ++ (runB (feedBytes m c).2 cs).1, (runB (feedBytes m c).2 cs).2)

/-- `chunkStartOk` holds for every valid-UTF-8 chunk. -/
theorem chunkStartOk_of_valid (c : Bytes) (h : validUtf8 c = true) :
    chunkStartOk c = true := by
  cases c with
  | nil => rfl
  | cons b rest =>
    unfold chunkStartOk
    by_cases h1 : b < 0x80
    · simp only [h1, decide_True, Bool.true_or]
    · by_cases h2 : b ≤ 0xBF
      · exfalso
        simp only [validUtf8, utf8ValidGo] at h
        have hs : utf8StartByte b = .invalid := by
          unfold utf8StartByte
          rw [if_neg h1, if_pos h2]
        rw [hs] at h
        exact absurd h (by simp)
      · have : 0xC0 ≤ b := by omega
        simp only [this, decide_True, Bool.or_true]

/-- `chunkStartOk` holds for a concatenation of chunks that satisfy it. -/
theorem chunkStartOk_join : ∀ (bs : List Bytes),
    (∀ b ∈ bs, chunkStartOk b = true) → chunkStartOk bs.join = true := by
  intro bs
  induction bs with
  | nil => intro _; rfl
  | cons c cs ih =>
    intro h
    have hc : chunkStartOk c = true := h c (by simp)
    have hcs : chunkStartOk cs.join = true := ih (fun b hb => h b (by simp [hb]))
    cases c with
    | nil => simpa [List.join] using hcs
    | cons b r => simpa [List.join, chunkStartOk] using hc

/-- A dead connection stays dead and silent. -/
theorem runB_failed (e : FatalErr) : ∀ (ds : List Bytes), runB (.failed e) ds = ([], .failed e) := by
  intro ds
  induction ds with
  | nil => rfl
  | cons d ds ihd => simp [runB, feedBytes, ihd]

/-- A crashed connection stays crashed and silent. -/
theorem runB_crashed : ∀ (ds : List Bytes), runB .crashed ds = ([], .crashed) := by
  intro ds
  induction ds with
  | nil => rfl
  | cons d ds ihd => simp [runB, feedBytes, ihd]

/-- Feeding chunks one at a time is the same as feeding their
concatenation, provided no chunk starts with a continuation byte and the
starting state has nothing left to process. -/
theorem runB_join : ∀ (bs : List Bytes) (s : St), step s = .blocked →
    (∀ b ∈ bs, chunkStartOk b = true) →
    runB (.live s) bs = feedBytes (.live s) bs.join := by
  intro bs
  induction bs with
  | nil =>
    intro s hq _
    have : processAll (addB s []) = ([], .pending s) := by
      have h1 : addB s [] = s := by
        unfold addB
        cases s
        simp
      rw [h1, processAll_eq, hq]
    simp [runB, feedBytes, this, outcomeM]
  | cons c cs ih =>
    intro s hq hall
    have hc : chunkStartOk c = true := hall c (by simp)
    have hcs : ∀ b ∈ cs, chunkStartOk b = true := fun b hb => hall b (by simp [hb])
    have hjoin : chunkStartOk cs.join = true := chunkStartOk_join cs hcs
    have hassoc : addB s (c :: cs).join = addB (addB s c) cs.join := by
      unfold addB
      cases s
      simp [List.join]
    have hpa := processAll_addB (muSt (addB s c)) (addB s c) cs.join (Nat.le_refl _) hjoin
    have hrunB : runB (.live s) (c :: cs)
        = ((processAll (addB s c)).1 ++ (runB (outcomeM (processAll (addB s c)).2) cs).1,
           (runB (outcomeM (processAll (addB s c)).2) cs).2) := rfl
    cases ho : (processAll (addB s c)).2 with
    | pending s₁ =>
      have hps : processAll (addB s c) = ((processAll (addB s c)).1, .pending s₁) := by
        rw [← ho]
      have hblocked : step s₁ = .blocked :=
        processAll_pending_blocked (muSt (addB s c)) (addB s c) (Nat.le_refl _) _ s₁ hps
      have hrec := ih s₁ hblocked hcs
      have happ := hpa.1 (processAll (addB s c)).1 s₁ hps
      have hfeed : feedBytes (.live s) (c :: cs).join
          = ((processAll (addB s c)).1 ++ (processAll (addB s₁ cs.join)).1,
             outcomeM (processAll (addB s₁ cs.join)).2) := by
        show ((processAll (addB s (c :: cs).join)).1, outcomeM (processAll (addB s (c :: cs).join)).2) = _
        rw [hassoc, happ]
      have hfeed1 : feedBytes (.live s₁) cs.join
          = ((processAll (addB s₁ cs.join)).1, outcomeM (processAll (addB s₁ cs.join)).2) := rfl
      rw [hrunB, ho]
      simp only [outcomeM]
      rw [hrec, hfeed1, hfeed]
    | fatal e =>
      have hps : processAll (addB s c) = ((processAll (addB s c)).1, .fatal e) := by
        rw [← ho]
      have happ := hpa.2.1 (processAll (addB s c)).1 e hps
      have hfeed : feedBytes (.live s) (c :: cs).join = ((processAll (addB s c)).1, .failed e) := by
        show ((processAll (addB s (c :: cs).join)).1, outcomeM (processAll (addB s (c :: cs).join)).2) = _
        rw [hassoc, happ]
        rfl
      rw [hrunB, ho]
      simp only [outcomeM]
      rw [runB_failed e cs, hfeed]
      simp
    | crashed =>
      have hps : processAll (addB s c) = ((processAll (addB s c)).1, .crashed) := by
        rw [← ho]
      have happ := hpa.2.2 (processAll (addB s c)).1 hps
      have hfeed : feedBytes (.live s) (c :: cs).join = ((processAll (addB s c)).1, .crashed) := by
        show ((processAll (addB s (c :: cs).join)).1, outcomeM (processAll (addB s (c :: cs).join)).2) = _
        rw [hassoc, happ]
        rfl
      rw [hrunB, ho]
      simp only [outcomeM]
      rw [runB_crashed cs, hfeed]
      simp

/-! ### WebSocket chunks

`run_once` appends `Message::Text` contents as-is and passes
`Message::Binary` contents through `String::from_utf8_lossy`. -/

/-- A transport read: a WebSocket text or binary data frame. -/
inductive WsChunk where
  | text (s : Bytes)
  | binary (b : Bytes)
  deriving DecidableEq, Repr

/-- The bytes carried on the wire. -/
def rawBytes : WsChunk → Bytes
  | .text s => s
  | .binary b => b

/-- The bytes the code appends to `partial`. -/
def chunkBytes : WsChunk → Bytes
  | .text s => s
  | .binary b => utf8Lossy b

/-- Run the framer over a sequence of WebSocket reads. -/
def runWs (m : MState) (cs : List WsChunk) : List Ev × MState :=
  runB m (cs.map chunkBytes)

/-! ### Evaluating control lines symbolically -/

theorem bytesOf_MSG : bytesOf "MSG " = [77, 83, 71, 32] := by decide
theorem bytesOf_HMSG : bytesOf "HMSG " = [72, 77, 83, 71, 32] := by decide
theorem bytesOf_PING : bytesOf "PING" = [80, 73, 78, 71] := by decide
theorem bytesOf_PONG : bytesOf "PONG" = [80, 79, 78, 71] := by decide
theorem bytesOf_ERR : bytesOf "-ERR" = [45, 69, 82, 82] := by decide
theorem bytesOf_INFO : bytesOf "INFO " = [73, 78, 70, 79, 32] := by decide

/-- A string starting with a prefix is that prefix followed by a tail. -/
theorem startsWithB_shape : ∀ (p l : Bytes), startsWithB p l = true → ∃ t, l = p ++ t := by
  intro p
  induction p with
  | nil => intro l _; exact ⟨l, rfl⟩
  | cons a ps ih =>
    intro l h
    cases l with
    | nil => simp [startsWithB] at h
    | cons b bs =>
      simp only [startsWithB, Bool.and_eq_true, decide_eq_true_eq] at h
      obtain ⟨hab, hrest⟩ := h
      obtain ⟨t, ht⟩ := ih bs hrest
      exact ⟨t, by rw [hab, ht]; rfl⟩

/-- Indexing at the boundary of an append reads the second list. -/
theorem get?_append_self {α : Type} : ∀ (l r : List α), (l ++ r).get? l.length = r.get? 0 := by
  intro l
  induction l with
  | nil => intro r; rfl
  | cons a l' ih => intro r; exact ih r

/-- Control-line handling of an `MSG` line: the payload length is always
parsed from the 4th whitespace token, whatever the token count. -/
theorem lineStep_msg (s : St) (line rest : Bytes) (subj lenTok : Bytes) (n : Nat)
    (hstart : startsWithB (bytesOf "MSG ") line = true)
    (hlen4 : 4 ≤ (splitWs line).length)
    (hgd1 : (splitWs line).getD 1 [] = subj)
    (hgd3 : (splitWs line).getD 3 [] = lenTok)
    (hn : parseNatB lenTok = some n) :
    lineStep s line rest = .cont none
      { buf := rest, expPayload := some n, expHeader := none, subj := some subj,
        connected := s.connected } := by
  obtain ⟨t, ht⟩ := startsWithB_shape _ line hstart
  rw [bytesOf_MSG] at ht
  subst ht
  have h4 : ¬ (splitWs ([77, 83, 71, 32] ++ t)).length < 4 := by omega
  unfold lineStep
  rw [bytesOf_MSG, bytesOf_PING, bytesOf_PONG, bytesOf_ERR, bytesOf_INFO]
  simp only [List.cons_append, List.nil_append, startsWithB]
  simp only [show ((80 : Nat) = 77) = False by simp, show ((45 : Nat) = 77) = False by simp,
    show ((73 : Nat) = 77) = False by simp, decide_False, Bool.false_and, Bool.if_false_left]
  simp only [show ((77 : Nat) = 77) = True by simp, show ((83 : Nat) = 83) = True by simp,
    show ((71 : Nat) = 71) = True by simp, show ((32 : Nat) = 32) = True by simp,
    decide_True, Bool.true_and, startsWithB, if_true]
  simp only [reduceCtorEq, if_false, Bool.and_self, Bool.and_true, Bool.true_and]
  simp only [List.cons_append, List.nil_append] at h4 hgd1 hgd3
  rw [if_neg h4]
  rw [hgd3, hn, hgd1]

/-- Control-line handling of an `HMSG` line: header and total length are
always parsed from the 4th and 5th whitespace tokens. -/
theorem lineStep_hmsg (s : St) (line rest : Bytes) (subj hTok tTok : Bytes) (hd n : Nat)
    (hstart : startsWithB (bytesOf "HMSG ") line = true)
    (hlen5 : 5 ≤ (splitWs line).length)
    (hgd1 : (splitWs line).getD 1 [] = subj)
    (hgd3 : (splitWs line).getD 3 [] = hTok)
    (hgd4 : (splitWs line).getD 4 [] = tTok)
    (hh : parseNatB hTok = some hd)
    (hn : parseNatB tTok = some n) :
    lineStep s line rest = .cont none
      { buf := rest, expPayload := some n, expHeader := some hd, subj := some subj,
        connected := s.connected } := by
  obtain ⟨t, ht⟩ := startsWithB_shape _ line hstart
  rw [bytesOf_HMSG] at ht
  subst ht
  have h5 : ¬ (splitWs ([72, 77, 83, 71, 32] ++ t)).length < 5 := by omega
  unfold lineStep
  rw [bytesOf_HMSG, bytesOf_MSG, bytesOf_PING, bytesOf_PONG, bytesOf_ERR, bytesOf_INFO]
  simp only [List.cons_append, List.nil_append, startsWithB]
  simp only [show ((80 : Nat) = 72) = False by simp, show ((45 : Nat) = 72) = False by simp,
    show ((73 : Nat) = 72) = False by simp, show ((77 : Nat) = 72) = False by simp,
    decide_False, Bool.false_and, Bool.if_false_left]
  simp only [show ((72 : Nat) = 72) = True by simp, show ((77 : Nat) = 77) = True by simp,
    show ((83 : Nat) = 83) = True by simp, show ((71 : Nat) = 71) = True by simp,
    show ((32 : Nat) = 32) = True by simp,
    decide_True, Bool.true_and, startsWithB, if_true]
  simp only [reduceCtorEq, if_false, Bool.and_self, Bool.and_true, Bool.true_and]
  simp only [List.cons_append, List.nil_append] at h5 hgd1 hgd3 hgd4
  rw [if_neg h5]
  rw [hgd3, hh, hgd4, hn, hgd1]

/-- A CRLF appended after a CRLF-free prefix is found exactly there. -/
theorem findCRLF_none_append : ∀ (line r : Bytes), findCRLF line = none →
    findCRLF (line ++ 13 :: 10 :: r) = some line.length
  | [], r => by intro _; rfl
  | [a], r => by
    intro _
    show findCRLF (a :: 13 :: 10 :: r) = some 1
    unfold findCRLF
    rw [if_neg (by omega : ¬ (a = 13 ∧ (13 : Nat) = 10))]
    rfl
  | a :: b :: rest, r => by
    intro h
    unfold findCRLF at h
    split at h
    · exact Option.noConfusion h
    · have hrec : findCRLF (b :: rest) = none := by
        cases hm : findCRLF (b :: rest) with
        | none => rfl
        | some j => rw [hm] at h; simp at h
      show findCRLF (a :: b :: (rest ++ 13 :: 10 :: r)) = some (rest.length + 1 + 1)
      unfold findCRLF
      rename_i hcond
      rw [if_neg hcond]
      have := findCRLF_none_append (b :: rest) r hrec
      simp only [List.cons_append] at this
      try simp only [List.append_eq]
      rw [this]
      simp only [Option.map_some', List.length_cons]

/-- Dropping a line and its CRLF terminator from the buffer. -/
theorem drop_line_crlf : ∀ (line r : Bytes), (line ++ (13 :: 10 :: r)).drop (line.length + 2) = r := by
  intro line
  induction line with
  | nil => intro r; rfl
  | cons a l ih =>
    intro r
    show (a :: (l ++ 13 :: 10 :: r)).drop (l.length + 1 + 2) = r
    have : l.length + 1 + 2 = (l.length + 2) + 1 := by omega
    rw [this, List.drop_succ_cons]
    exact ih r

/-- Splitting the first control line off a framed buffer. -/
theorem splitCRLF_line (line r : Bytes) (h : findCRLF line = none) :
    splitCRLF (line ++ (13 :: 10 :: r)) = some (line, r) := by
  unfold splitCRLF
  rw [findCRLF_none_append line r h]
  simp only [Option.map_some']
  rw [take_append_le line.length line (13 :: 10 :: r) (Nat.le_refl _), List.take_length,
    drop_line_crlf]

/-- A fully buffered payload followed by CRLF is consumed in one pass,
emitting the message; for HMSG the declared header length is sliced off
(or the slice panics off a char boundary). -/
theorem step_payload_exact (payload : Bytes) (n : Nat) (eh : Option Nat) (sj : Option Bytes) (cn : Bool)
    (hplen : payload.length = n) :
    step { buf := payload ++ crlfB, expPayload := some n, expHeader := eh, subj := sj, connected := cn }
      = match eh with
        | some hd =>
          if isCharBoundary payload hd then
            .cont (some (.msg (sj.getD []) (payload.drop hd))) ⟨[], none, none, none, cn⟩
          else .panic
        | none => .cont (some (.msg (sj.getD []) payload)) ⟨[], none, none, none, cn⟩ := by
  subst hplen
  have hlen : ¬ (payload ++ crlfB).length < payload.length + 2 := by simp [crlfB]
  have hb1 : isCharBoundary (payload ++ crlfB) payload.length = true := by
    unfold isCharBoundary
    rw [get?_append_self]
    simp [crlfB]
  have hb2 : isCharBoundary (payload ++ crlfB) (payload.length + 2) = true := by
    unfold isCharBoundary
    simp [crlfB]
  have e1 : (payload ++ crlfB).take payload.length = payload := by
    rw [take_append_le _ _ _ (Nat.le_refl _), List.take_length]
  have e2 : (payload ++ crlfB).drop payload.length = crlfB := List.drop_left payload crlfB
  have e3 : (payload ++ crlfB).drop (payload.length + 2) = [] := by
    have hl : (payload ++ crlfB).length = payload.length + 2 := by simp [crlfB]
    rw [← hl, List.drop_length]
  cases eh <;>
    simp [step, hlen, hb1, hb2, e1, e2, e3] <;>
    simp [crlfB]

/-- The empty quiescent state drains to nothing. -/
theorem processAll_empty (eh : Option Nat) (sj : Option Bytes) (cn : Bool) :
    processAll ⟨[], none, eh, sj, cn⟩ = ([], .pending ⟨[], none, eh, sj, cn⟩) := rfl

/-- One MSG control line with its fully buffered payload emits exactly one
message carrying the whole payload block as body. -/
theorem processAll_msg_stream (line payload subj lenTok : Bytes) (n : Nat) (cn : Bool)
    (hstart : startsWithB (bytesOf "MSG ") line = true)
    (hlen4 : 4 ≤ (splitWs line).length)
    (hgd1 : (splitWs line).getD 1 [] = subj)
    (hgd3 : (splitWs line).getD 3 [] = lenTok)
    (hn : parseNatB lenTok = some n)
    (hnocrlf : findCRLF line = none)
    (hplen : payload.length = n) :
    processAll ⟨line ++ crlfB ++ (payload ++ crlfB), none, none, none, cn⟩
      = ([Ev.msg subj payload], .pending ⟨[], none, none, none, cn⟩) := by
  have hshape : line ++ crlfB ++ (payload ++ crlfB) = line ++ (13 :: 10 :: (payload ++ crlfB)) := by
    simp [crlfB]
  have hsplit : splitCRLF (line ++ crlfB ++ (payload ++ crlfB)) = some (line, payload ++ crlfB) := by
    rw [hshape]
    exact splitCRLF_line line (payload ++ crlfB) hnocrlf
  have hstep1 : step ⟨line ++ crlfB ++ (payload ++ crlfB), none, none, none, cn⟩
      = .cont none ⟨payload ++ crlfB, some n, none, some subj, cn⟩ := by
    unfold step
    dsimp only
    rw [hsplit]
    exact lineStep_msg _ line (payload ++ crlfB) subj lenTok n hstart hlen4 hgd1 hgd3 hn
  have hstep2 := step_payload_exact payload n none (some subj) cn hplen
  dsimp only at hstep2
  rw [processAll_eq, hstep1]
  dsimp only
  rw [processAll_eq, hstep2]
  dsimp only
  rw [processAll_empty]
  simp

/-- One HMSG control line with its fully buffered payload emits exactly
one message whose body is the payload block with the declared header
prefix removed, provided the declared header length is a valid slice
index of the block. -/
theorem processAll_hmsg_stream (line payload subj hTok tTok : Bytes) (hd n : Nat) (cn : Bool)
    (hstart : startsWithB (bytesOf "HMSG ") line = true)
    (hlen5 : 5 ≤ (splitWs line).length)
    (hgd1 : (splitWs line).getD 1 [] = subj)
    (hgd3 : (splitWs line).getD 3 [] = hTok)
    (hgd4 : (splitWs line).getD 4 [] = tTok)
    (hh : parseNatB hTok = some hd)
    (hn : parseNatB tTok = some n)
    (hnocrlf : findCRLF line = none)
    (hplen : payload.length = n)
    (hb : isCharBoundary payload hd = true) :
    processAll ⟨line ++ crlfB ++ (payload ++ crlfB), none, none, none, cn⟩
      = ([Ev.msg subj (payload.drop hd)], .pending ⟨[], none, none, none, cn⟩) := by
  have hshape : line ++ crlfB ++ (payload ++ crlfB) = line ++ (13 :: 10 :: (payload ++ crlfB)) := by
    simp [crlfB]
  have hsplit : splitCRLF (line ++ crlfB ++ (payload ++ crlfB)) = some (line, payload ++ crlfB) := by
    rw [hshape]
    exact splitCRLF_line line (payload ++ crlfB) hnocrlf
  have hstep1 : step ⟨line ++ crlfB ++ (payload ++ crlfB), none, none, none, cn⟩
      = .cont none ⟨payload ++ crlfB, some n, some hd, some subj, cn⟩ := by
    unfold step
    dsimp only
    rw [hsplit]
    exact lineStep_hmsg _ line (payload ++ crlfB) subj hTok tTok hd n hstart hlen5 hgd1 hgd3 hgd4 hh hn
  have hstep2 := step_payload_exact payload n (some hd) (some subj) cn hplen
  dsimp only at hstep2
  simp only [hb, if_true] at hstep2
  rw [processAll_eq, hstep1]
  dsimp only
  rw [processAll_eq, hstep2]
  dsimp only
  rw [processAll_empty]
  simp

/-- An HMSG whose declared header length exceeds its declared total
length panics on the body slice: no message is emitted and the
connection crashes. -/
theorem processAll_hmsg_panic (line payload subj hTok tTok : Bytes) (hd n : Nat) (cn : Bool)
    (hstart : startsWithB (bytesOf "HMSG ") line = true)
    (hlen5 : 5 ≤ (splitWs line).length)
    (hgd1 : (splitWs line).getD 1 [] = subj)
    (hgd3 : (splitWs line).getD 3 [] = hTok)
    (hgd4 : (splitWs line).getD 4 [] = tTok)
    (hh : parseNatB hTok = some hd)
    (hn : parseNatB tTok = some n)
    (hnocrlf : findCRLF line = none)
    (hplen : payload.length = n)
    (hgt : n < hd) :
    processAll ⟨line ++ crlfB ++ (payload ++ crlfB), none, none, none, cn⟩
      = ([], .crashed) := by
  have hshape : line ++ crlfB ++ (payload ++ crlfB) = line ++ (13 :: 10 :: (payload ++ crlfB)) := by
    simp [crlfB]
  have hsplit : splitCRLF (line ++ crlfB ++ (payload ++ crlfB)) = some (line, payload ++ crlfB) := by
    rw [hshape]
    exact splitCRLF_line line (payload ++ crlfB) hnocrlf
  have hstep1 : step ⟨line ++ crlfB ++ (payload ++ crlfB), none, none, none, cn⟩
      = .cont none ⟨payload ++ crlfB, some n, some hd, some subj, cn⟩ := by
    unfold step
    dsimp only
    rw [hsplit]
    exact lineStep_hmsg _ line (payload ++ crlfB) subj hTok tTok hd n hstart hlen5 hgd1 hgd3 hgd4 hh hn
  have hb : isCharBoundary payload hd = false := by
    unfold isCharBoundary
    have h0 : ¬ hd = 0 := by omega
    have h1 : ¬ hd = payload.length := by omega
    have h2 : payload.get? hd = none := by
      rw [List.get?_eq_none]
      omega
    have h2' : payload[hd]? = none := by
      rw [← List.get?_eq_getElem?]
      exact h2
    simp [h0, h1, h2, h2']
  have hstep2 := step_payload_exact payload n (some hd) (some subj) cn hplen
  dsimp only at hstep2
  rw [hb] at hstep2
  simp only [Bool.false_eq_true, if_false] at hstep2
  rw [processAll_eq, hstep1]
  dsimp only
  rw [processAll_eq, hstep2]
  rfl

/-! ### `build_connect_options` (src/main.rs:170-203, src/smart_fetcher.rs:170-203)

The environment variables the function reads are an explicit record; the
`serde_json::Map` is an association list with insert-or-replace and
remove. -/

/-- The credential environment variables. -/
structure NatsEnv where
  user : Option String
  pass : Option String
  password : Option String
  token : Option String
  jwt : Option String
  sig : Option String
  deriving DecidableEq, Repr

/-- JSON values stored in the CONNECT map. -/
inductive CVal where
  | str (s : String)
  | bool (b : Bool)
  | nat (n : Nat)
  deriving DecidableEq, Repr

/-- The CONNECT options map (key order abstracted). -/
abbrev CMap := List (String × CVal)

/-- `Map::insert`: replace an existing key or append. -/
def mapInsert (k : String) (v : CVal) : CMap → CMap
  | [] => [(k, v)]
  | (k', v') :: rest => if k' = k then (k, v) :: rest else (k', v') :: mapInsert k v rest

/-- `Map::remove`. -/
def mapRemove (k : String) : CMap → CMap
  | [] => []
  | (k', v') :: rest => if k' = k then mapRemove k rest else (k', v') :: mapRemove k rest

/-- `Map::get`. -/
def mapGet (k : String) : CMap → Option CVal
  | [] => none
  | (k', v') :: rest => if k' = k then some v' else mapGet k rest

/-- `build_connect_options`: base options with `user`/`pass`, then the
token branch replaces them with `auth_token`, then the jwt branch removes
`user`/`pass` again and adds `jwt` (and `sig` when set). -/
def build_connect_options (e : NatsEnv) : CMap :=
  let user := e.user.getD "subscriber"
  let password := (e.pass.or e.password).getD "OktDhmZ2D3CtYUiM"
  let m0 : CMap :=
    mapInsert "headers" (.bool true)
      (mapInsert "version" (.str "1.30.3")
        (mapInsert "lang" (.str "nats.ws")
          (mapInsert "pass" (.str password)
            (mapInsert "user" (.str user)
              (mapInsert "pedantic" (.bool false)
                (mapInsert "verbose" (.bool false)
                  (mapInsert "protocol" (.nat 1)
                    (mapInsert "no_responders" (.bool true) []))))))))
  let m1 : CMap :=
    match e.token with
    | some tok => mapInsert "auth_token" (.str tok) (mapRemove "pass" (mapRemove "user" m0))
    | none => m0
  match e.jwt with
  | some jwt =>
    let m2 := mapInsert "jwt" (.str jwt) (mapRemove "pass" (mapRemove "user" m1))
    match e.sig with
    | some sig => mapInsert "sig" (.str sig) m2
    | none => m2
  | none => m1

/-! ### `extract_cid_from_url` (src/main.rs:241-282, src/smart_fetcher.rs:271-312)

The external `url::Url` parser is abstracted as an oracle: the function
receives the parse result (scheme, host, path segments) alongside the
raw input it falls back to when parsing fails.  Strings are character
lists. -/

/-- Character strings. -/
abbrev Chars := List Char

/-- Characters of a Lean string literal. -/
def strChars (s : String) : Chars := s.data

/-- The fields of a parsed `url::Url` that the function reads. -/
structure ParsedUrl where
  scheme : Chars
  host : Option Chars
  pathSegments : Option (List Chars)
  deriving DecidableEq, Repr

/-- Prefix test on character strings. -/
def isPrefixChars : Chars → Chars → Bool
  | [], _ => true
  | _ :: _, [] => false
  | p :: ps, c :: cs => p = c && isPrefixChars ps cs

/-- Rust `str::find(pattern)`: index of the first occurrence. -/
def findSub (pat : Chars) (l : Chars) : Option Nat :=
  if isPrefixChars pat l then some 0
  else
    match l with
    | [] => none
    | _ :: cs => (findSub pat cs).map (· + 1)

/-- Rust `str::ends_with`. -/
def endsWithChars (suffix l : Chars) : Bool := isPrefixChars suffix.reverse l.reverse

/-- `host.split('.').next().unwrap_or("")`: the first dot-separated label. -/
def firstLabel (l : Chars) : Chars := l.takeWhile (· ≠ '.')

/-- ASCII whitespace (the relevant restriction of Rust `str::trim`). -/
def isWsChar (c : Char) : Bool :=
  c = ' ' || c = '\t' || c = '\n' || c = '\r' || c = '\x0b' || c = '\x0c'

/-- Rust `str::trim`. -/
def trimChars (l : Chars) : Chars :=
  ((l.dropWhile isWsChar).reverse.dropWhile isWsChar).reverse

/-- First path segment (`path_segments().next()`), used by the ipfs
scheme branch. -/
def ipfsFirstSeg : Option (List Chars) → Option Chars
  | some (c :: _) => some c
  | _ => none

/-- The `/ipfs/<cid>/...` path branch. -/
def pathIpfsSeg : Option (List Chars) → Option Chars
  | some (f :: rest) =>
    if f = strChars "ipfs" then
      match rest with
      | c :: _ => some c
      | [] => none
    else none
  | _ => none

/-- `extract_cid_from_url`, with the `Url::parse` result supplied as an
oracle (`none` = parse failure). -/
def extract_cid_from_url (parsed : Option ParsedUrl) (s : Chars) : Option Chars :=
  match parsed with
  | some u =>
    if u.scheme = strChars "ipfs" then
      match u.host with
      | some h => if h ≠ [] then some h else ipfsFirstSeg u.pathSegments
      | none => ipfsFirstSeg u.pathSegments
    else
      match u.host with
      | some h =>
        match findSub (strChars ".ipfs.") h with
        | some pos =>
          if h.take pos ≠ [] then some (h.take pos)
          else if endsWithChars (strChars ".ipfs.dweb.link") h then
            if firstLabel h ≠ [] then some (firstLabel h) else pathIpfsSeg u.pathSegments
          else pathIpfsSeg u.pathSegments
        | none =>
          if endsWithChars (strChars ".ipfs.dweb.link") h then
            if firstLabel h ≠ [] then some (firstLabel h) else pathIpfsSeg u.pathSegments
          else pathIpfsSeg u.pathSegments
      | none => pathIpfsSeg u.pathSegments
  | none => if trimChars s ≠ [] then some (trimChars s) else none

/-- A pattern is a prefix of itself followed by anything. -/
theorem isPrefixChars_append : ∀ (p t : Chars), isPrefixChars p (p ++ t) = true := by
  intro p
  induction p with
  | nil => intro t; rfl
  | cons c cs ih => intro t; simp [isPrefixChars, ih]

/-- In `cid ++ ".ipfs." ++ domain` with a dot-free `cid`, the first
occurrence of `".ipfs."` is exactly after the cid. -/
theorem findSub_ipfs (cid d : Chars) (hnd : cid.all (· ≠ '.') = true) :
    findSub (strChars ".ipfs.") (cid ++ strChars ".ipfs." ++ d) = some cid.length := by
  induction cid with
  | nil =>
    unfold findSub
    rw [if_pos]
    · rfl
    · simpa using isPrefixChars_append (strChars ".ipfs.") d
  | cons c cs ih =>
    simp only [List.all_cons, Bool.and_eq_true, decide_eq_true_eq] at hnd
    obtain ⟨hc, hcs⟩ := hnd
    unfold findSub
    rw [if_neg]
    · simp only [List.cons_append]
      rw [ih (by simpa using hcs)]
      rfl
    · intro hp
      simp only [List.cons_append, strChars, isPrefixChars] at hp
      have : ('.' : Char) = c := by
        by_contra hne
        simp [hne] at hp
      exact hc this.symm

/-! ### Supervisor backoff (src/main.rs:642-658, src/smart_fetcher.rs:866-882) -/

/-- Result of one `run_once` call. -/
inductive RunResult where
  | ok
  | err
  deriving DecidableEq, Repr

/-- `backoff = min(backoff * 2, 30)`. -/
def nextBackoff (b : Nat) : Nat := min (b * 2) 30

/-- The sleeps performed by the supervisor loop of `main`, starting from
backoff `b`: an error sleeps the current backoff and doubles it with the
30 s cap; an ok return resets the backoff to 1 and sleeps nothing. -/
def superviseSleeps : Nat → List RunResult → List Nat
  | _, [] => []
  | _, .ok :: rest => superviseSleeps 1 rest
  | b, .err :: rest => b :: superviseSleeps (nextBackoff b) rest

/-- Doubling with cap maps `min (2^j) 30` to `min (2^(j+1)) 30`. -/
theorem nextBackoff_min (j : Nat) : nextBackoff (min (2 ^ j) 30) = min (2 ^ (j + 1)) 30 := by
  have hp : 2 ^ (j + 1) = 2 ^ j * 2 := by ring
  rcases Nat.le_total (2 ^ j) 30 with h | h
  · rw [Nat.min_eq_left h]
    unfold nextBackoff
    omega
  · rw [Nat.min_eq_right h]
    unfold nextBackoff
    have : (30 : Nat) ≤ 2 ^ (j + 1) := by omega
    omega

/-- The backoff sequence over a pure failure streak from backoff
`min (2^j) 30`. -/
theorem superviseSleeps_streak : ∀ (k j : Nat),
    superviseSleeps (min (2 ^ j) 30) (List.replicate k .err)
      = (List.range k).map (fun i => min (2 ^ (j + i)) 30) := by
  intro k
  induction k with
  | zero => intro j; rfl
  | succ m ih =>
    intro j
    rw [List.replicate_succ]
    show min (2 ^ j) 30 :: superviseSleeps (nextBackoff (min (2 ^ j) 30)) (List.replicate m .err)
      = _
    rw [nextBackoff_min, ih (j + 1), List.range_succ_eq_map]
    simp only [List.map_cons, List.map_map]
    refine congrArg₂ _ (by rw [Nat.add_zero]) ?_
    apply List.map_congr_left
    intro i _
    simp only [Function.comp_apply]
    have : j + 1 + i = j + Nat.succ i := by omega
    rw [this]

/-! ### Hedged fetch engine (src/smart_fetcher.rs:365-591)

`smart_ipfs_fetch_and_log` races a local-gateway task against a
threshold timer, then, unless the local fetch already succeeded, races
the surviving tasks with `select_all`.  The concurrency is embedded as
an explicit schedule: the phase-1 winner and the phase-2 completion
order, with each completed task carrying its `fetch_from_gateway`
result (or a `JoinError`).  After the threshold fires the code pushes
the local task into the phase-2 set only `if !local_task.is_finished()`
(line 468): a local task that completed inside that window is dropped
and its result — success included — is discarded without being read, so
the schedule also records that sampled-and-dropped result. -/

/-- Result of one fetch task as observed at its completion. -/
inductive FOut where
  | ok (bytes elapsedMs : Nat)
  | err (e : String)
  | aborted
  deriving DecidableEq, Repr

/-- Which arm of the phase-1 `select!` fires first.  When the threshold
fires, the code later samples `local_task.is_finished()` (line 468)
before pushing the local task into the phase-2 set: `dropped` is the
local fetch's result if the task finished inside that window — the
handle is dropped and the result, success included, is discarded
unobserved — and `none` when the local task is still running and joins
phase 2 (appearing as a `.loc` entry of the completion order). -/
inductive Phase1 where
  | localDone (o : FOut)
  | thresholdFired (dropped : Option FOut)
  deriving DecidableEq, Repr

/-- Task kind as tagged by the code (`"local"` / `"public"`). -/
inductive GwKind where
  | loc
  | pub
  deriving DecidableEq, Repr

/-- A schedule: what phase 1 observes, then the completion order of the
phase-2 tasks with their results. -/
structure Race where
  phase1 : Phase1
  order : List (GwKind × String × FOut)
  deriving DecidableEq, Repr

/-- A structured log record: the `event` field and, for the terminal
success record, the `strategy` field. -/
structure Rec where
  event : String
  strategy : Option String
  deriving DecidableEq, Repr

/-- The phase-2 `select_all` loop: first success wins and emits the
terminal success record; failures and task errors are logged and the
loop continues; an exhausted task set emits the terminal failure
record. -/
def phase2Loop : List (GwKind × String × FOut) → List Rec
  | [] => [⟨"smart_ipfs_fetch_failed", none⟩]
  | (k, _, .ok _ _) :: _ =>
    [⟨if k = .loc then "smart_ipfs_local_late_success" else "smart_ipfs_public_success", none⟩,
     ⟨"smart_ipfs_fetch_success",
      some (if k = .loc then "local_after_threshold" else "fallback_to_public")⟩]
  | (k, _, .err _) :: rest =>
    ⟨if k = .loc then "smart_ipfs_local_failed" else "smart_ipfs_public_failed", none⟩ ::
      phase2Loop rest
  | (_, _, .aborted) :: rest =>
    ⟨"smart_ipfs_task_error", none⟩ :: phase2Loop rest

/-- `smart_ipfs_fetch_and_log` as a record stream over a schedule. -/
def smart_ipfs_fetch_and_log (race : Race) : List Rec :=
  ⟨"smart_ipfs_fetch_start", none⟩ ::
    match race.phase1 with
    | .localDone (.ok _ _) => [⟨"smart_ipfs_fetch_success", some "local_only"⟩]
    | .localDone (.err _) =>
      ⟨"smart_ipfs_local_failed", none⟩ :: ⟨"smart_ipfs_fallback_start", none⟩ ::
        phase2Loop race.order
    | .localDone .aborted =>
      ⟨"smart_ipfs_fallback_start", none⟩ :: phase2Loop race.order
    | .thresholdFired _ =>
      ⟨"smart_ipfs_local_threshold_exceeded", none⟩ :: ⟨"smart_ipfs_fallback_start", none⟩ ::
        phase2Loop race.order

/-- Count of records with a given event name. -/
def countEvent (name : String) (rs : List Rec) : Nat :=
  (rs.filter (fun r => r.event = name)).length

/-- Some attempt's success is observed by the run: the phase-1 local
result or a phase-2 completion.  A local result discarded at the
`is_finished()` check is not observed. -/
def raceHasOk (race : Race) : Bool :=
  (match race.phase1 with
   | .localDone (.ok _ _) => true
   | _ => false) ||
  race.order.any (fun t => match t.2.2 with | .ok _ _ => true | _ => false)

/-- Some gateway attempt succeeded within its timeout, counting a local
success that finished in the drop window and was discarded. -/
def raceAttemptOk (race : Race) : Bool :=
  raceHasOk race ||
  (match race.phase1 with
   | .thresholdFired (some (.ok _ _)) => true
   | _ => false)

/-- The phase-2 loop emits exactly one terminal record: a success record
when the order contains a success and no failed record, and vice versa. -/
theorem phase2Loop_counts : ∀ (order : List (GwKind × String × FOut)),
    (order.any (fun t => match t.2.2 with | .ok _ _ => true | _ => false) = true →
      countEvent "smart_ipfs_fetch_success" (phase2Loop order) = 1 ∧
      countEvent "smart_ipfs_fetch_failed" (phase2Loop order) = 0) ∧
    (order.any (fun t => match t.2.2 with | .ok _ _ => true | _ => false) = false →
      countEvent "smart_ipfs_fetch_success" (phase2Loop order) = 0 ∧
      countEvent "smart_ipfs_fetch_failed" (phase2Loop order) = 1) := by
  intro order
  induction order with
  | nil =>
    constructor
    · intro h; simp at h
    · intro _; constructor <;> rfl
  | cons t rest ih =>
    obtain ⟨k, gw, o⟩ := t
    cases o with
    | ok b ms =>
      constructor
      · intro _
        cases k <;> constructor <;> rfl
      · intro h
        simp [List.any_cons] at h
    | err e =>
      constructor
      · intro h
        have hrest : rest.any (fun t => match t.2.2 with | .ok _ _ => true | _ => false) = true := by
          simpa [List.any_cons] using h
        have := ih.1 hrest
        cases k <;>
          simpa [phase2Loop, countEvent, List.filter] using this
      · intro h
        have hrest : rest.any (fun t => match t.2.2 with | .ok _ _ => true | _ => false) = false := by
          simpa [List.any_cons] using h
        have := ih.2 hrest
        cases k <;>
          simpa [phase2Loop, countEvent, List.filter] using this
    | aborted =>
      constructor
      · intro h
        have hrest : rest.any (fun t => match t.2.2 with | .ok _ _ => true | _ => false) = true := by
          simpa [List.any_cons] using h
        have := ih.1 hrest
        simpa [phase2Loop, countEvent, List.filter] using this
      · intro h
        have hrest : rest.any (fun t => match t.2.2 with | .ok _ _ => true | _ => false) = false := by
          simpa [List.any_cons] using h
        have := ih.2 hrest
        simpa [phase2Loop, countEvent, List.filter] using this

/-! ### Claim-level definitions and helpers -/

/-- Spec-side field selection for MSG control lines, following the
spec's words: with 4 tokens there is no reply and the 4th token is the
payload length; with 5 tokens the 4th is the reply subject and the 5th
the payload length. Used to compare the specified selection with the
code's. -/
def msgFieldsSpec (parts : List Bytes) : Option (Bytes × Option Bytes × Bytes) :=
  if parts.length = 4 then some (parts.getD 1 [], none, parts.getD 3 [])
  else if parts.length = 5 then some (parts.getD 1 [], some (parts.getD 3 []), parts.getD 4 [])
  else none

/-- Deliver a chunk's bytes as a text frame instead. -/
def asText : WsChunk → WsChunk
  | .text s => .text s
  | .binary b => .text b

/-- For valid UTF-8 content the appended bytes equal the wire bytes. -/
theorem chunkBytes_of_valid (c : WsChunk) (h : validUtf8 (rawBytes c) = true) :
    chunkBytes c = rawBytes c := by
  cases c with
  | text s => rfl
  | binary b => exact utf8Lossy_of_valid b h

/-- A valid slice index is at most the length. -/
theorem isCharBoundary_le (l : Bytes) (i : Nat) (h : isCharBoundary l i = true) :
    i ≤ l.length := by
  by_contra hgt
  push_neg at hgt
  have hm : l.get? i = none := by
    rw [List.get?_eq_none]
    omega
  unfold isCharBoundary at h
  rw [hm] at h
  have h0 : ¬ (i = 0) := by omega
  have h1 : ¬ (i = l.length) := by omega
  simp [h0, h1] at h

/-! ### C1 -/

/-- C1 counterexample: with PUMP_NATS_JWT, PUMP_NATS_TOKEN and
PUMP_NATS_USER/PUMP_NATS_PASS all set, the CONNECT JSON does contain
`jwt`, but it also still contains `auth_token`, so the claimed absence
of `auth_token` is false. -/
theorem c1_counterexample :
    mapGet "jwt" (build_connect_options
        ⟨some "u", some "p", none, some "tok", some "jw", some "sg"⟩) = some (.str "jw") ∧
    mapGet "auth_token" (build_connect_options
        ⟨some "u", some "p", none, some "tok", some "jw", some "sg"⟩) = some (.str "tok") := by
  constructor <;> decide

/-- C1 (amended): when PUMP_NATS_JWT is set the CONNECT JSON contains
`jwt` and contains neither `user` nor `pass`, but `auth_token` is still
present exactly when PUMP_NATS_TOKEN is set: the jwt branch overrides
only the user/pass credentials, not the token. -/
theorem c1_connect_jwt_precedence (e : NatsEnv) (j : String) (hj : e.jwt = some j) :
    mapGet "jwt" (build_connect_options e) = some (.str j) ∧
    mapGet "user" (build_connect_options e) = none ∧
    mapGet "pass" (build_connect_options e) = none ∧
    mapGet "auth_token" (build_connect_options e) = e.token.map (fun t => CVal.str t) := by
  cases ht : e.token <;> cases hs : e.sig <;>
    simp [build_connect_options, hj, ht, hs, mapInsert, mapRemove, mapGet]

/-- C1 witness. -/
theorem c1_connect_jwt_precedence_witness :
    mapGet "jwt" (build_connect_options ⟨none, none, none, some "t", some "jv", none⟩)
        = some (.str "jv") ∧
    mapGet "user" (build_connect_options ⟨none, none, none, some "t", some "jv", none⟩) = none ∧
    mapGet "pass" (build_connect_options ⟨none, none, none, some "t", some "jv", none⟩) = none ∧
    mapGet "auth_token" (build_connect_options ⟨none, none, none, some "t", some "jv", none⟩)
        = (NatsEnv.token ⟨none, none, none, some "t", some "jv", none⟩).map (fun t => CVal.str t) :=
  c1_connect_jwt_precedence ⟨none, none, none, some "t", some "jv", none⟩ "jv" rfl

/-! ### C10 -/

/-- C10: with no credential environment variables set,
`build_connect_options` still emits user/pass credentials with the
hardcoded defaults `subscriber` / `OktDhmZ2D3CtYUiM`; PUMP_NATS_PASSWORD
is accepted as a fallback alias for PUMP_NATS_PASS; and the CONNECT JSON
never omits credentials (it always carries `jwt`, `auth_token`, or a
user/pass pair). -/
theorem c10_connect_default_credentials :
    (∀ e : NatsEnv, e.user = none → e.pass = none → e.password = none → e.token = none →
      e.jwt = none →
      mapGet "user" (build_connect_options e) = some (.str "subscriber") ∧
      mapGet "pass" (build_connect_options e) = some (.str "OktDhmZ2D3CtYUiM")) ∧
    (∀ (e : NatsEnv) (p : String), e.pass = none → e.password = some p → e.token = none →
      e.jwt = none →
      mapGet "pass" (build_connect_options e) = some (.str p)) ∧
    (∀ e : NatsEnv,
      mapGet "jwt" (build_connect_options e) ≠ none ∨
      mapGet "auth_token" (build_connect_options e) ≠ none ∨
      (mapGet "user" (build_connect_options e) ≠ none ∧
        mapGet "pass" (build_connect_options e) ≠ none)) := by
  refine ⟨?_, ?_, ?_⟩
  · intro e hu hp hpw ht hj
    simp [build_connect_options, hu, hp, hpw, ht, hj, mapInsert, mapRemove, mapGet]
  · intro e p hp hpw ht hj
    simp [build_connect_options, hp, hpw, ht, hj, mapInsert, mapRemove, mapGet]
  · intro e
    cases hj : e.jwt with
    | some j =>
      left
      cases ht : e.token <;> cases hs : e.sig <;>
        simp [build_connect_options, hj, ht, hs, mapInsert, mapRemove, mapGet]
    | none =>
      cases ht : e.token with
      | some tok =>
        right; left
        simp [build_connect_options, hj, ht, mapInsert, mapRemove, mapGet]
      | none =>
        right; right
        constructor <;> simp [build_connect_options, hj, ht, mapInsert, mapRemove, mapGet]

/-- C10 witness. -/
theorem c10_connect_default_credentials_witness :
    (mapGet "user" (build_connect_options ⟨none, none, none, none, none, none⟩)
        = some (.str "subscriber") ∧
      mapGet "pass" (build_connect_options ⟨none, none, none, none, none, none⟩)
        = some (.str "OktDhmZ2D3CtYUiM")) ∧
    mapGet "pass" (build_connect_options ⟨none, none, some "altpw", none, none, none⟩)
        = some (.str "altpw") ∧
    (mapGet "jwt" (build_connect_options ⟨none, none, none, none, none, none⟩) ≠ none ∨
      mapGet "auth_token" (build_connect_options ⟨none, none, none, none, none, none⟩) ≠ none ∨
      (mapGet "user" (build_connect_options ⟨none, none, none, none, none, none⟩) ≠ none ∧
        mapGet "pass" (build_connect_options ⟨none, none, none, none, none, none⟩) ≠ none)) :=
  ⟨c10_connect_default_credentials.1 ⟨none, none, none, none, none, none⟩ rfl rfl rfl rfl rfl,
   c10_connect_default_credentials.2.1 ⟨none, none, some "altpw", none, none, none⟩ "altpw"
     rfl rfl rfl rfl,
   c10_connect_default_credentials.2.2 ⟨none, none, none, none, none, none⟩⟩

/-! ### C2 -/

/-- C2 counterexample: on the 5-token line `MSG a 1 5 2` the spec-side
selection by argument count makes the 4th token (`5`) the reply subject
and the 5th token (`2`) the payload length, but the code records payload
length 5 from the 4th token; and on a 5-token line whose 4th token is a
non-numeric reply subject the code kills the connection instead of
skipping the reply. -/
theorem c2_counterexample :
    msgFieldsSpec (splitWs (bytesOf "MSG a 1 5 2"))
        = some (bytesOf "a", some (bytesOf "5"), bytesOf "2") ∧
    lineStep initSt (bytesOf "MSG a 1 5 2") []
        = .cont none ⟨[], some 5, none, some (bytesOf "a"), false⟩ ∧
    lineStep initSt (bytesOf "MSG a 1 reply 2") []
        = .fatal (.invalidMsgLen (bytesOf "MSG a 1 reply 2")) := by
  refine ⟨by decide, by decide, by decide⟩

/-- C2 (amended): the framer splits control lines on whitespace but does
not select fields by argument count: for MSG the payload length is
always parsed from the 4th token and for HMSG the header and total
lengths from the 4th and 5th, whatever the token count.  A 4-token MSG
line and a 5-token HMSG line therefore behave as the claim says, while
on a 5-token MSG (resp. 6-token HMSG) line the token in reply-subject
position is itself parsed as the (header) length. -/
theorem c2_field_selection_by_position :
    (∀ (line t0 subj sid lenTok payload : Bytes) (n : Nat) (cn : Bool),
      startsWithB (bytesOf "MSG ") line = true →
      splitWs line = [t0, subj, sid, lenTok] →
      findCRLF line = none →
      parseNatB lenTok = some n →
      payload.length = n →
      processAll ⟨line ++ crlfB ++ (payload ++ crlfB), none, none, none, cn⟩
        = ([Ev.msg subj payload], .pending ⟨[], none, none, none, cn⟩)) ∧
    (∀ (line t0 subj sid tok4 tok5 payload : Bytes) (r : Nat) (cn : Bool),
      startsWithB (bytesOf "MSG ") line = true →
      splitWs line = [t0, subj, sid, tok4, tok5] →
      findCRLF line = none →
      parseNatB tok4 = some r →
      payload.length = r →
      processAll ⟨line ++ crlfB ++ (payload ++ crlfB), none, none, none, cn⟩
        = ([Ev.msg subj payload], .pending ⟨[], none, none, none, cn⟩)) ∧
    (∀ (line t0 subj sid hTok tTok payload : Bytes) (hd n : Nat) (cn : Bool),
      startsWithB (bytesOf "HMSG ") line = true →
      splitWs line = [t0, subj, sid, hTok, tTok] →
      findCRLF line = none →
      parseNatB hTok = some hd →
      parseNatB tTok = some n →
      payload.length = n →
      isCharBoundary payload hd = true →
      processAll ⟨line ++ crlfB ++ (payload ++ crlfB), none, none, none, cn⟩
        = ([Ev.msg subj (payload.drop hd)], .pending ⟨[], none, none, none, cn⟩)) ∧
    (∀ (line t0 subj sid tok4 tok5 tok6 payload : Bytes) (hd n : Nat) (cn : Bool),
      startsWithB (bytesOf "HMSG ") line = true →
      splitWs line = [t0, subj, sid, tok4, tok5, tok6] →
      findCRLF line = none →
      parseNatB tok4 = some hd →
      parseNatB tok5 = some n →
      payload.length = n →
      isCharBoundary payload hd = true →
      processAll ⟨line ++ crlfB ++ (payload ++ crlfB), none, none, none, cn⟩
        = ([Ev.msg subj (payload.drop hd)], .pending ⟨[], none, none, none, cn⟩)) := by
  refine ⟨?_, ?_, ?_, ?_⟩
  · intro line t0 subj sid lenTok payload n cn hstart hsplit hnocrlf hn hplen
    exact processAll_msg_stream line payload subj lenTok n cn hstart
      (by rw [hsplit]; simp) (by rw [hsplit]; rfl) (by rw [hsplit]; rfl) hn hnocrlf hplen
  · intro line t0 subj sid tok4 tok5 payload r cn hstart hsplit hnocrlf hr hplen
    exact processAll_msg_stream line payload subj tok4 r cn hstart
      (by rw [hsplit]; simp) (by rw [hsplit]; rfl) (by rw [hsplit]; rfl) hr hnocrlf hplen
  · intro line t0 subj sid hTok tTok payload hd n cn hstart hsplit hnocrlf hh hn hplen hb
    exact processAll_hmsg_stream line payload subj hTok tTok hd n cn hstart
      (by rw [hsplit]; simp) (by rw [hsplit]; rfl) (by rw [hsplit]; rfl) (by rw [hsplit]; rfl)
      hh hn hnocrlf hplen hb
  · intro line t0 subj sid tok4 tok5 tok6 payload hd n cn hstart hsplit hnocrlf hh hn hplen hb
    exact processAll_hmsg_stream line payload subj tok4 tok5 hd n cn hstart
      (by rw [hsplit]; simp) (by rw [hsplit]; rfl) (by rw [hsplit]; rfl) (by rw [hsplit]; rfl)
      hh hn hnocrlf hplen hb

/-- C2 witness. -/
theorem c2_field_selection_by_position_witness :
    processAll ⟨bytesOf "MSG a 1 3" ++ crlfB ++ (bytesOf "abc" ++ crlfB), none, none, none, false⟩
        = ([Ev.msg (bytesOf "a") (bytesOf "abc")], .pending ⟨[], none, none, none, false⟩) ∧
    processAll ⟨bytesOf "MSG a 1 3 9" ++ crlfB ++ (bytesOf "abc" ++ crlfB), none, none, none, false⟩
        = ([Ev.msg (bytesOf "a") (bytesOf "abc")], .pending ⟨[], none, none, none, false⟩) ∧
    processAll ⟨bytesOf "HMSG s 2 2 5" ++ crlfB ++ (bytesOf "hdwor" ++ crlfB), none, none, none,
        false⟩
        = ([Ev.msg (bytesOf "s") (bytesOf "wor")], .pending ⟨[], none, none, none, false⟩) ∧
    processAll ⟨bytesOf "HMSG s 2 2 5 9" ++ crlfB ++ (bytesOf "hdwor" ++ crlfB), none, none,
        none, false⟩
        = ([Ev.msg (bytesOf "s") (bytesOf "wor")], .pending ⟨[], none, none, none, false⟩) := by
  refine ⟨?_, ?_, ?_, ?_⟩
  · exact c2_field_selection_by_position.1 (bytesOf "MSG a 1 3") (bytesOf "MSG") (bytesOf "a")
      (bytesOf "1") (bytesOf "3") (bytesOf "abc") 3 false (by decide) (by decide) (by decide)
      (by decide) (by decide)
  · exact c2_field_selection_by_position.2.1 (bytesOf "MSG a 1 3 9") (bytesOf "MSG") (bytesOf "a")
      (bytesOf "1") (bytesOf "3") (bytesOf "9") (bytesOf "abc") 3 false (by decide) (by decide)
      (by decide) (by decide) (by decide)
  · exact c2_field_selection_by_position.2.2.1 (bytesOf "HMSG s 2 2 5") (bytesOf "HMSG")
      (bytesOf "s") (bytesOf "2") (bytesOf "2") (bytesOf "5") (bytesOf "hdwor") 2 5 false
      (by decide) (by decide) (by decide) (by decide) (by decide) (by decide) (by decide)
  · exact c2_field_selection_by_position.2.2.2 (bytesOf "HMSG s 2 2 5 9") (bytesOf "HMSG")
      (bytesOf "s") (bytesOf "2") (bytesOf "2") (bytesOf "5") (bytesOf "9") (bytesOf "hdwor")
      2 5 false (by decide) (by decide) (by decide) (by decide) (by decide) (by decide) (by decide)

/-! ### C4 -/

/-- C4 (amended): a MSG control line followed by its fully buffered
payload block emits exactly one message whose body is the whole block
(length payload-len − 0); an HMSG control line does so provided the
declared header length falls on a UTF-8 character boundary of the
buffered block (which entails header-len ≤ total-len): then the body is
the block minus the header prefix, of length payload-len − header-len,
and the header bytes are exactly the prefix `[0, header-len)`.  When the
declared header length lands inside a multi-byte character the slice
`payload_block[..hlen]` panics and no message is emitted (see the
counterexample); header-len > total-len likewise panics (C9). -/
theorem c4_message_body_lengths :
    (∀ (line subj lenTok payload : Bytes) (n : Nat) (cn : Bool),
      startsWithB (bytesOf "MSG ") line = true →
      4 ≤ (splitWs line).length →
      (splitWs line).getD 1 [] = subj →
      (splitWs line).getD 3 [] = lenTok →
      findCRLF line = none →
      parseNatB lenTok = some n →
      payload.length = n →
      processAll ⟨line ++ crlfB ++ (payload ++ crlfB), none, none, none, cn⟩
          = ([Ev.msg subj payload], .pending ⟨[], none, none, none, cn⟩) ∧
        payload.length = n - 0) ∧
    (∀ (line subj hTok tTok payload : Bytes) (hd n : Nat) (cn : Bool),
      startsWithB (bytesOf "HMSG ") line = true →
      5 ≤ (splitWs line).length →
      (splitWs line).getD 1 [] = subj →
      (splitWs line).getD 3 [] = hTok →
      (splitWs line).getD 4 [] = tTok →
      findCRLF line = none →
      parseNatB hTok = some hd →
      parseNatB tTok = some n →
      payload.length = n →
      isCharBoundary payload hd = true →
      processAll ⟨line ++ crlfB ++ (payload ++ crlfB), none, none, none, cn⟩
          = ([Ev.msg subj (payload.drop hd)], .pending ⟨[], none, none, none, cn⟩) ∧
        (payload.drop hd).length = n - hd ∧
        (payload.take hd).length = hd ∧
        payload.take hd ++ payload.drop hd = payload) := by
  constructor
  · intro line subj lenTok payload n cn hstart hlen4 hgd1 hgd3 hnocrlf hn hplen
    refine ⟨processAll_msg_stream line payload subj lenTok n cn hstart hlen4 hgd1 hgd3 hn
      hnocrlf hplen, ?_⟩
    omega
  · intro line subj hTok tTok payload hd n cn hstart hlen5 hgd1 hgd3 hgd4 hnocrlf hh hn hplen hb
    have hdle : hd ≤ payload.length := isCharBoundary_le payload hd hb
    refine ⟨processAll_hmsg_stream line payload subj hTok tTok hd n cn hstart hlen5 hgd1 hgd3
      hgd4 hh hn hnocrlf hplen hb, ?_, ?_, ?_⟩
    · rw [List.length_drop]
      omega
    · rw [List.length_take]
      omega
    · exact List.take_append_drop hd payload

/-- C4 witness. -/
theorem c4_message_body_lengths_witness :
    (processAll ⟨bytesOf "MSG b 4 3" ++ crlfB ++ (bytesOf "xyz" ++ crlfB), none, none, none, true⟩
        = ([Ev.msg (bytesOf "b") (bytesOf "xyz")], .pending ⟨[], none, none, none, true⟩) ∧
      (bytesOf "xyz").length = 3 - 0) ∧
    (processAll ⟨bytesOf "HMSG t 7 3 5" ++ crlfB ++ (bytesOf "abcde" ++ crlfB), none, none, none,
        true⟩
        = ([Ev.msg (bytesOf "t") ((bytesOf "abcde").drop 3)], .pending ⟨[], none, none, none, true⟩) ∧
      ((bytesOf "abcde").drop 3).length = 5 - 3 ∧
      ((bytesOf "abcde").take 3).length = 3 ∧
      (bytesOf "abcde").take 3 ++ (bytesOf "abcde").drop 3 = bytesOf "abcde") :=
  ⟨c4_message_body_lengths.1 (bytesOf "MSG b 4 3") (bytesOf "b") (bytesOf "3") (bytesOf "xyz")
      3 true (by decide) (by decide) (by decide) (by decide) (by decide) (by decide) (by decide),
   c4_message_body_lengths.2 (bytesOf "HMSG t 7 3 5") (bytesOf "t") (bytesOf "3") (bytesOf "5")
      (bytesOf "abcde") 3 5 true (by decide) (by decide) (by decide) (by decide) (by decide)
      (by decide) (by decide) (by decide) (by decide) (by decide)⟩

/-- C4 counterexample: an HMSG control line declaring header-len 1 and
total-len 2, followed by its fully buffered 2-byte payload — the single
character é (C3 A9).  The line is well-formed, the stream is valid
UTF-8 (so it is deliverable as one text frame), and header-len ≤
total-len, yet no message is emitted: the slice `payload_block[..1]`
falls inside the character and the code panics. -/
theorem c4_counterexample :
    validUtf8 (bytesOf "HMSG s 1 1 2" ++ crlfB ++ ([0xC3, 0xA9] ++ crlfB)) = true ∧
    1 ≤ 2 ∧
    processAll ⟨bytesOf "HMSG s 1 1 2" ++ crlfB ++ ([0xC3, 0xA9] ++ crlfB),
        none, none, none, false⟩ = ([], .crashed) := by
  refine ⟨by decide, by decide, by decide⟩

/-! ### C9 -/

/-- C9: HMSG body extraction has no guard relating the declared header
length to the declared total length: when header-len exceeds total-len
the byte-index slice `payload_block[hlen..]` is out of range and the
code panics — the connection crashes, no message is emitted, and no
protocol error is reported. -/
theorem c9_hmsg_header_overrun_panic (line subj hTok tTok payload : Bytes) (hd n : Nat) (cn : Bool)
    (hstart : startsWithB (bytesOf "HMSG ") line = true)
    (hlen5 : 5 ≤ (splitWs line).length)
    (hgd1 : (splitWs line).getD 1 [] = subj)
    (hgd3 : (splitWs line).getD 3 [] = hTok)
    (hgd4 : (splitWs line).getD 4 [] = tTok)
    (hnocrlf : findCRLF line = none)
    (hh : parseNatB hTok = some hd)
    (hn : parseNatB tTok = some n)
    (hplen : payload.length = n)
    (hgt : n < hd) :
    processAll ⟨line ++ crlfB ++ (payload ++ crlfB), none, none, none, cn⟩ = ([], .crashed) :=
  processAll_hmsg_panic line payload subj hTok tTok hd n cn hstart hlen5 hgd1 hgd3 hgd4 hh hn
    hnocrlf hplen hgt

/-- C9 witness. -/
theorem c9_hmsg_header_overrun_panic_witness :
    processAll ⟨bytesOf "HMSG s 1 5 3" ++ crlfB ++ (bytesOf "abc" ++ crlfB), none, none, none,
        false⟩ = ([], .crashed) :=
  c9_hmsg_header_overrun_panic (bytesOf "HMSG s 1 5 3") (bytesOf "s") (bytesOf "5") (bytesOf "3")
    (bytesOf "abc") 5 3 false (by decide) (by decide) (by decide) (by decide) (by decide)
    (by decide) (by decide) (by decide) (by decide) (by decide)

/-! ### C3 -/

/-- Deliver a chunk's bytes as a binary frame instead. -/
def asBinary : WsChunk → WsChunk
  | .text s => .binary s
  | .binary b => .binary b

/-- The appended byte chunks agree frame-by-frame between a stream and
its all-binary delivery when every frame's bytes are valid UTF-8. -/
theorem map_chunkBytes_asBinary : ∀ (cs : List WsChunk),
    (∀ c ∈ cs, validUtf8 (rawBytes c) = true) →
    (cs.map asBinary).map chunkBytes = cs.map chunkBytes := by
  intro cs
  induction cs with
  | nil => intro _; rfl
  | cons c cs ih =>
    intro h
    have hc := h c (by simp)
    have hrest : ∀ x ∈ cs, validUtf8 (rawBytes x) = true := fun x hx => h x (by simp [hx])
    simp only [List.map_cons]
    rw [ih hrest]
    cases c with
    | text s =>
      show utf8Lossy s :: _ = s :: _
      rw [utf8Lossy_of_valid s hc]
    | binary b => rfl

/-- C3 counterexample: a broker stream whose 1-byte MSG payload is the
byte 0xFF, delivered as one text frame versus one binary frame.  The
text delivery emits the message with the original payload byte; the
binary delivery passes through `from_utf8_lossy`, which turns 0xFF into
the three replacement bytes, and the run then panics on a non-boundary
slice — the emitted Messages are not byte-identical. -/
theorem c3_counterexample :
    runWs (.live initSt) [.text (bytesOf "MSG a 1 1\r\n" ++ [0xFF] ++ crlfB)]
      ≠ runWs (.live initSt) [.binary (bytesOf "MSG a 1 1\r\n" ++ [0xFF] ++ crlfB)] := by
  decide

/-- C3 (amended): text and binary WebSocket frames are interchangeable
at the byte level only for frames whose bytes are valid UTF-8 (then
`from_utf8_lossy` is the identity and the emitted Messages coincide);
binary frames with invalid UTF-8 are rewritten with U+FFFD replacement
characters before framing, so their payload bytes are not preserved. -/
theorem c3_text_binary_interchangeable (m : MState) (cs : List WsChunk)
    (h : ∀ c ∈ cs, validUtf8 (rawBytes c) = true) :
    runWs m (cs.map asBinary) = runWs m cs := by
  unfold runWs
  rw [map_chunkBytes_asBinary cs h]

/-- C3 witness. -/
theorem c3_text_binary_interchangeable_witness :
    runWs (.live initSt) ([WsChunk.text (bytesOf "PING\r\n")].map asBinary)
      = runWs (.live initSt) [WsChunk.text (bytesOf "PING\r\n")] :=
  c3_text_binary_interchangeable (.live initSt) [WsChunk.text (bytesOf "PING\r\n")]
    (by decide)

/-! ### C5 -/

/-- C5 counterexample: a valid broker stream whose MSG payload is the
two-byte UTF-8 character `é` (C3 A9), refragmented at the byte level in
the middle of that character and delivered as binary frames.  The two
splits carry the same wire bytes but produce different results: the
unsplit delivery emits the message, the mid-character split corrupts
both halves via lossy decoding and the run crashes on a non-boundary
slice. -/
theorem c5_counterexample :
    (([WsChunk.binary (bytesOf "MSG a 1 2\r\n" ++ [0xC3, 0xA9] ++ crlfB)].map rawBytes).join
      = ([WsChunk.binary (bytesOf "MSG a 1 2\r\n" ++ [0xC3]),
          WsChunk.binary ([0xA9] ++ crlfB)].map rawBytes).join) ∧
    runWs (.live initSt) [.binary (bytesOf "MSG a 1 2\r\n" ++ [0xC3, 0xA9] ++ crlfB)]
      ≠ runWs (.live initSt) [.binary (bytesOf "MSG a 1 2\r\n" ++ [0xC3]),
                              .binary ([0xA9] ++ crlfB)] := by
  constructor
  · decide
  · decide

/-- C5 (amended): the framer is fragmentation-independent over
refragmentations whose reads are each valid UTF-8 — equivalently, whose
boundaries fall on UTF-8 character boundaries (any split of an ASCII
stream qualifies): any two such splits of the same byte stream produce
the identical events and final state.  Splitting inside a multi-byte
character is not transparent because each binary read is decoded
lossily on its own. -/
theorem c5_fragmentation_independence (cs₁ cs₂ : List WsChunk)
    (h₁ : ∀ c ∈ cs₁, validUtf8 (rawBytes c) = true)
    (h₂ : ∀ c ∈ cs₂, validUtf8 (rawBytes c) = true)
    (hj : (cs₁.map rawBytes).join = (cs₂.map rawBytes).join) :
    runWs (.live initSt) cs₁ = runWs (.live initSt) cs₂ := by
  have e₁ : cs₁.map chunkBytes = cs₁.map rawBytes :=
    List.map_congr_left (fun c hc => chunkBytes_of_valid c (h₁ c hc))
  have e₂ : cs₂.map chunkBytes = cs₂.map rawBytes :=
    List.map_congr_left (fun c hc => chunkBytes_of_valid c (h₂ c hc))
  have hok₁ : ∀ b ∈ cs₁.map rawBytes, chunkStartOk b = true := by
    intro b hb
    obtain ⟨c, hc, rfl⟩ := List.mem_map.mp hb
    exact chunkStartOk_of_valid _ (h₁ c hc)
  have hok₂ : ∀ b ∈ cs₂.map rawBytes, chunkStartOk b = true := by
    intro b hb
    obtain ⟨c, hc, rfl⟩ := List.mem_map.mp hb
    exact chunkStartOk_of_valid _ (h₂ c hc)
  unfold runWs
  rw [e₁, e₂, runB_join (cs₁.map rawBytes) initSt rfl hok₁,
    runB_join (cs₂.map rawBytes) initSt rfl hok₂, hj]

/-- C5 witness. -/
theorem c5_fragmentation_independence_witness :
    runWs (.live initSt) [WsChunk.text (bytesOf "PING\r\nPO")]
      = runWs (.live initSt) [WsChunk.text (bytesOf "PI"), WsChunk.text (bytesOf "NG\r"),
          WsChunk.text (bytesOf "\nPO")] :=
  c5_fragmentation_independence [WsChunk.text (bytesOf "PING\r\nPO")]
    [WsChunk.text (bytesOf "PI"), WsChunk.text (bytesOf "NG\r"), WsChunk.text (bytesOf "\nPO")]
    (by decide) (by decide) (by decide)

/-! ### C6 -/

/-- C6 (amended): over any schedule of gateway-task outcomes, the hedged
fetch run emits exactly one `smart_ipfs_fetch_success` record and no
`smart_ipfs_fetch_failed` record when at least one attempt's success is
observed by the run, and exactly one `smart_ipfs_fetch_failed` record
and no success record when none is.  A local success that completes
between the threshold firing and the `is_finished()` check is dropped
unobserved, so the run can emit the failed record despite a successful
attempt (see the counterexample). -/
theorem c6_hedged_fetch_terminal_records (race : Race) :
    (raceHasOk race = true →
      countEvent "smart_ipfs_fetch_success" (smart_ipfs_fetch_and_log race) = 1 ∧
      countEvent "smart_ipfs_fetch_failed" (smart_ipfs_fetch_and_log race) = 0) ∧
    (raceHasOk race = false →
      countEvent "smart_ipfs_fetch_failed" (smart_ipfs_fetch_and_log race) = 1 ∧
      countEvent "smart_ipfs_fetch_success" (smart_ipfs_fetch_and_log race) = 0) := by
  obtain ⟨p1, order⟩ := race
  have hp2 := phase2Loop_counts order
  cases p1 with
  | localDone o =>
    cases o with
    | ok b ms =>
      constructor
      · intro _
        constructor <;> rfl
      · intro hfalse
        simp [raceHasOk] at hfalse
    | err e =>
      constructor
      · intro h
        have hOk : order.any (fun t => match t.2.2 with | .ok _ _ => true | _ => false) = true := by
          simpa [raceHasOk] using h
        have h2 := hp2.1 hOk
        constructor
        · simpa [smart_ipfs_fetch_and_log, countEvent, List.filter] using h2.1
        · simpa [smart_ipfs_fetch_and_log, countEvent, List.filter] using h2.2
      · intro h
        have hOk : order.any (fun t => match t.2.2 with | .ok _ _ => true | _ => false) = false := by
          simpa [raceHasOk] using h
        have h2 := hp2.2 hOk
        constructor
        · simpa [smart_ipfs_fetch_and_log, countEvent, List.filter] using h2.2
        · simpa [smart_ipfs_fetch_and_log, countEvent, List.filter] using h2.1
    | aborted =>
      constructor
      · intro h
        have hOk : order.any (fun t => match t.2.2 with | .ok _ _ => true | _ => false) = true := by
          simpa [raceHasOk] using h
        have h2 := hp2.1 hOk
        constructor
        · simpa [smart_ipfs_fetch_and_log, countEvent, List.filter] using h2.1
        · simpa [smart_ipfs_fetch_and_log, countEvent, List.filter] using h2.2
      · intro h
        have hOk : order.any (fun t => match t.2.2 with | .ok _ _ => true | _ => false) = false := by
          simpa [raceHasOk] using h
        have h2 := hp2.2 hOk
        constructor
        · simpa [smart_ipfs_fetch_and_log, countEvent, List.filter] using h2.2
        · simpa [smart_ipfs_fetch_and_log, countEvent, List.filter] using h2.1
  | thresholdFired d =>
    constructor
    · intro h
      have hOk : order.any (fun t => match t.2.2 with | .ok _ _ => true | _ => false) = true := by
        simpa [raceHasOk] using h
      have h2 := hp2.1 hOk
      constructor
      · simpa [smart_ipfs_fetch_and_log, countEvent, List.filter] using h2.1
      · simpa [smart_ipfs_fetch_and_log, countEvent, List.filter] using h2.2
    · intro h
      have hOk : order.any (fun t => match t.2.2 with | .ok _ _ => true | _ => false) = false := by
        simpa [raceHasOk] using h
      have h2 := hp2.2 hOk
      constructor
      · simpa [smart_ipfs_fetch_and_log, countEvent, List.filter] using h2.2
      · simpa [smart_ipfs_fetch_and_log, countEvent, List.filter] using h2.1

/-- C6 witness. -/
theorem c6_hedged_fetch_terminal_records_witness :
    (countEvent "smart_ipfs_fetch_success"
        (smart_ipfs_fetch_and_log ⟨.thresholdFired none,
          [(.pub, "g1", .err "http_status: 404"), (.pub, "g2", .ok 1024 800)]⟩) = 1 ∧
      countEvent "smart_ipfs_fetch_failed"
        (smart_ipfs_fetch_and_log ⟨.thresholdFired none,
          [(.pub, "g1", .err "http_status: 404"), (.pub, "g2", .ok 1024 800)]⟩) = 0) ∧
    (countEvent "smart_ipfs_fetch_failed"
        (smart_ipfs_fetch_and_log ⟨.localDone (.err "request_failed"),
          [(.pub, "g1", .err "x"), (.pub, "g2", .aborted)]⟩) = 1 ∧
      countEvent "smart_ipfs_fetch_success"
        (smart_ipfs_fetch_and_log ⟨.localDone (.err "request_failed"),
          [(.pub, "g1", .err "x"), (.pub, "g2", .aborted)]⟩) = 0) :=
  ⟨(c6_hedged_fetch_terminal_records ⟨.thresholdFired none,
      [(.pub, "g1", .err "http_status: 404"), (.pub, "g2", .ok 1024 800)]⟩).1 (by decide),
   (c6_hedged_fetch_terminal_records ⟨.localDone (.err "request_failed"),
      [(.pub, "g1", .err "x"), (.pub, "g2", .aborted)]⟩).2 (by decide)⟩

/-- C6 counterexample: the local fetch succeeds within its timeout but
finishes in the window between the threshold firing and the
`is_finished()` check, so its result is discarded unobserved; the only
public gateway then fails, and the run emits `smart_ipfs_fetch_failed`
and no success record even though a gateway attempt succeeded. -/
theorem c6_counterexample :
    raceAttemptOk ⟨.thresholdFired (some (.ok 2048 120)), [(.pub, "g1", .err "timeout")]⟩ = true ∧
    countEvent "smart_ipfs_fetch_success"
      (smart_ipfs_fetch_and_log
        ⟨.thresholdFired (some (.ok 2048 120)), [(.pub, "g1", .err "timeout")]⟩) = 0 ∧
    countEvent "smart_ipfs_fetch_failed"
      (smart_ipfs_fetch_and_log
        ⟨.thresholdFired (some (.ok 2048 120)), [(.pub, "g1", .err "timeout")]⟩) = 1 := by
  refine ⟨by decide, by decide, by decide⟩

/-! ### C7 -/

/-- Subdomain-style extraction: the substring before the first
`".ipfs."` of the host is the CID. -/
theorem extract_cid_subdomain (u : ParsedUrl) (s cid domain : Chars)
    (hscheme : ¬ u.scheme = strChars "ipfs")
    (hhost : u.host = some (cid ++ strChars ".ipfs." ++ domain))
    (hne : cid ≠ [])
    (hall : cid.all (· ≠ '.') = true) :
    extract_cid_from_url (some u) s = some cid := by
  unfold extract_cid_from_url
  dsimp only
  rw [if_neg hscheme, hhost]
  dsimp only
  rw [findSub_ipfs cid domain hall]
  dsimp only
  have htake : (cid ++ strChars ".ipfs." ++ domain).take cid.length = cid := by
    rw [List.append_assoc,
      take_append_le cid.length cid (strChars ".ipfs." ++ domain) (Nat.le_refl _),
      List.take_length]
  rw [htake, if_pos hne]

/-- Path-style extraction: with no subdomain match on the host, the
segment after a leading `ipfs` path segment is the CID. -/
theorem extract_cid_path (u : ParsedUrl) (s cid : Chars)
    (hscheme : ¬ u.scheme = strChars "ipfs")
    (hhost : ∀ h, u.host = some h → findSub (strChars ".ipfs.") h = none ∧
        endsWithChars (strChars ".ipfs.dweb.link") h = false)
    (hpath : ∃ rest, u.pathSegments = some (strChars "ipfs" :: cid :: rest)) :
    extract_cid_from_url (some u) s = some cid := by
  obtain ⟨rest, hps⟩ := hpath
  unfold extract_cid_from_url
  dsimp only
  rw [if_neg hscheme]
  cases hh : u.host with
  | none =>
    rw [hps]
    simp [pathIpfsSeg]
  | some h =>
    obtain ⟨hfs, hew⟩ := hhost h hh
    dsimp only
    rw [hfs]
    dsimp only
    rw [hew]
    simp only [Bool.false_eq_true, if_false]
    rw [hps]
    simp [pathIpfsSeg]

/-- C7: `extract_cid_from_url` returns the CID for each of the four IPFS
URL forms — `ipfs://<cid>[/...]` (CID in the host position), subdomain
hosts `<cid>.ipfs.<domain>`, legacy hosts `<cid>.ipfs.dweb.link`, and
paths beginning `/ipfs/<cid>` — and returns the trimmed input as a bare
CID when URL parsing fails on a non-empty-after-trim input. -/
theorem c7_extract_cid_forms :
    (∀ (u : ParsedUrl) (s cid : Chars),
      u.scheme = strChars "ipfs" → u.host = some cid → cid ≠ [] →
      extract_cid_from_url (some u) s = some cid) ∧
    (∀ (u : ParsedUrl) (s cid domain : Chars),
      ¬ u.scheme = strChars "ipfs" →
      u.host = some (cid ++ strChars ".ipfs." ++ domain) →
      cid ≠ [] → cid.all (· ≠ '.') = true →
      extract_cid_from_url (some u) s = some cid) ∧
    (∀ (u : ParsedUrl) (s cid : Chars),
      ¬ u.scheme = strChars "ipfs" →
      u.host = some (cid ++ strChars ".ipfs.dweb.link") →
      cid ≠ [] → cid.all (· ≠ '.') = true →
      extract_cid_from_url (some u) s = some cid) ∧
    (∀ (u : ParsedUrl) (s cid : Chars),
      ¬ u.scheme = strChars "ipfs" →
      (∀ h, u.host = some h → findSub (strChars ".ipfs.") h = none ∧
          endsWithChars (strChars ".ipfs.dweb.link") h = false) →
      (∃ rest, u.pathSegments = some (strChars "ipfs" :: cid :: rest)) →
      extract_cid_from_url (some u) s = some cid) ∧
    (∀ s : Chars, trimChars s ≠ [] →
      extract_cid_from_url none s = some (trimChars s)) := by
  refine ⟨?_, ?_, ?_, ?_, ?_⟩
  · intro u s cid hscheme hhost hne
    unfold extract_cid_from_url
    dsimp only
    rw [if_pos hscheme, hhost]
    dsimp only
    rw [if_pos hne]
  · intro u s cid domain hscheme hhost hne hall
    exact extract_cid_subdomain u s cid domain hscheme hhost hne hall
  · intro u s cid hscheme hhost hne hall
    have hsplit : strChars ".ipfs.dweb.link" = strChars ".ipfs." ++ strChars "dweb.link" := by
      decide
    rw [hsplit] at hhost
    exact extract_cid_subdomain u s cid (strChars "dweb.link") hscheme
      (by rw [hhost, List.append_assoc]) hne hall
  · intro u s cid hscheme hhost hpath
    exact extract_cid_path u s cid hscheme hhost hpath
  · intro s hne
    unfold extract_cid_from_url
    dsimp only
    rw [if_pos hne]

/-- C7 witness. -/
theorem c7_extract_cid_forms_witness :
    extract_cid_from_url
        (some ⟨strChars "ipfs", some (strChars "bafybeigdyr"), some [strChars "cat.png"]⟩)
        (strChars "ipfs://bafybeigdyr/cat.png") = some (strChars "bafybeigdyr") ∧
    extract_cid_from_url
        (some ⟨strChars "https",
          some (strChars "bafybeigdyr" ++ strChars ".ipfs." ++ strChars "example.com"),
          some [strChars ""]⟩)
        (strChars "https://bafybeigdyr.ipfs.example.com/") = some (strChars "bafybeigdyr") ∧
    extract_cid_from_url
        (some ⟨strChars "https",
          some (strChars "bafybeigdyr" ++ strChars ".ipfs.dweb.link"), some [strChars ""]⟩)
        (strChars "https://bafybeigdyr.ipfs.dweb.link/") = some (strChars "bafybeigdyr") ∧
    extract_cid_from_url
        (some ⟨strChars "https", some (strChars "gateway.pinata.cloud"),
          some [strChars "ipfs", strChars "bafybeigdyr", strChars "cat.png"]⟩)
        (strChars "https://gateway.pinata.cloud/ipfs/bafybeigdyr/cat.png")
        = some (strChars "bafybeigdyr") ∧
    extract_cid_from_url none (strChars "  bafybeigdyr ")
        = some (trimChars (strChars "  bafybeigdyr ")) :=
  ⟨c7_extract_cid_forms.1 ⟨strChars "ipfs", some (strChars "bafybeigdyr"), some [strChars "cat.png"]⟩
      (strChars "ipfs://bafybeigdyr/cat.png") (strChars "bafybeigdyr") (by decide) rfl (by decide),
   c7_extract_cid_forms.2.1
      ⟨strChars "https",
        some (strChars "bafybeigdyr" ++ strChars ".ipfs." ++ strChars "example.com"),
        some [strChars ""]⟩
      (strChars "https://bafybeigdyr.ipfs.example.com/") (strChars "bafybeigdyr")
      (strChars "example.com") (by decide) rfl (by decide) (by decide),
   c7_extract_cid_forms.2.2.1
      ⟨strChars "https", some (strChars "bafybeigdyr" ++ strChars ".ipfs.dweb.link"),
        some [strChars ""]⟩
      (strChars "https://bafybeigdyr.ipfs.dweb.link/") (strChars "bafybeigdyr")
      (by decide) rfl (by decide) (by decide),
   c7_extract_cid_forms.2.2.2.1
      ⟨strChars "https", some (strChars "gateway.pinata.cloud"),
        some [strChars "ipfs", strChars "bafybeigdyr", strChars "cat.png"]⟩
      (strChars "https://gateway.pinata.cloud/ipfs/bafybeigdyr/cat.png")
      (strChars "bafybeigdyr") (by decide) (by decide) ⟨[strChars "cat.png"], rfl⟩,
   c7_extract_cid_forms.2.2.2.2 (strChars "  bafybeigdyr ") (by decide)⟩

/-! ### C8 -/

/-- C8: a streak of `k` consecutive session failures starting from a
fresh or freshly-reset supervisor sleeps `min (2^i) 30` seconds before
the `i`-th reconnect (the sequence 1, 2, 4, 8, 16, 30, 30, …), and an
ok-returning session resets the backoff so that a following streak
restarts the same sequence from 1 whatever the backoff was before. -/
theorem c8_supervisor_backoff (k : Nat) (b : Nat) :
    superviseSleeps 1 (List.replicate k .err)
        = (List.range k).map (fun i => min (2 ^ i) 30) ∧
    superviseSleeps b (.ok :: List.replicate k .err)
        = (List.range k).map (fun i => min (2 ^ i) 30) := by
  have hmain : superviseSleeps 1 (List.replicate k .err)
      = (List.range k).map (fun i => min (2 ^ i) 30) := by
    have h := superviseSleeps_streak k 0
    simpa using h
  exact ⟨hmain, hmain⟩
